import Mathlib

/-!
Verification of the episodic-store core of the LargeMemoryModel repository.

The development shallowly embeds the Python sources under `src/lmm/`:

* `Json` models the values Python's `json` module handles (the opaque
  `payload` / `data` dictionaries of the schema).  `Json.dumps` models
  `json.dumps` (default separators `", "`/`": "`, `ensure_ascii=True`)
  and `Json.loads` models `json.loads`.  Numbers are modelled as integers;
  floating-point payload values are outside the scope of this embedding.
* The schema model (`schema/delta.py`, `schema/knot.py`, `schema/bead.py`,
  `schema/episode.py`) becomes plain structures; `datetime` values are
  represented by their ISO-8601 rendering (a `String`), since the stores
  only ever move them through `isoformat`/`fromisoformat`, which are
  mutually inverse on that representation.  The bead-version creation
  timestamps are represented by a monotone `Nat` clock (ISO strings of a
  monotone UTC clock compare lexicographically in the same order).
* `InMemoryEpisodicStore` embeds `stores/episodic.py`; mutable `dict`s
  become insertion-ordered association lists.
* `Neo4jEpisodicStore` embeds `stores/neo4j_episodic.py`: the graph is the
  multiset of created nodes, the per-braid counters live on the braid root
  node, and Cypher `ORDER BY _ DESC LIMIT n` is modelled by a stable sort.
* `uuid4()` is modelled by a stream of fresh ids (`genId`) drawn from a
  per-store counter, `datetime.now(timezone.utc)` by the `clock` counter.
-/

/-- A value handled by Python's `json` module: the payloads the stores treat
as opaque.  `obj` keeps the dict's insertion order; Python dict keys are
unique, which `Json.wf` captures. -/
inductive Json where
  | null : Json
  | bool : Bool → Json
  | num : Int → Json
  | str : String → Json
  | arr : List Json → Json
  | obj : List (String × Json) → Json

mutual

/-- Structural decidable equality for `Json` (the derive handler does not
support the nested recursion through `List`). -/
def Json.decEq : (a b : Json) → Decidable (a = b)
  | .null, b =>
    match b with
    | .null => isTrue rfl
    | .bool _ => isFalse nofun
    | .num _ => isFalse nofun
    | .str _ => isFalse nofun
    | .arr _ => isFalse nofun
    | .obj _ => isFalse nofun
  | .bool a, b =>
    match b with
    | .null => isFalse nofun
    | .bool b =>
      if h : a = b then isTrue (by rw [h]) else isFalse (fun hc => h (Json.bool.inj hc))
    | .num _ => isFalse nofun
    | .str _ => isFalse nofun
    | .arr _ => isFalse nofun
    | .obj _ => isFalse nofun
  | .num a, b =>
    match b with
    | .null => isFalse nofun
    | .bool _ => isFalse nofun
    | .num b =>
      if h : a = b then isTrue (by rw [h]) else isFalse (fun hc => h (Json.num.inj hc))
    | .str _ => isFalse nofun
    | .arr _ => isFalse nofun
    | .obj _ => isFalse nofun
  | .str a, b =>
    match b with
    | .null => isFalse nofun
    | .bool _ => isFalse nofun
    | .num _ => isFalse nofun
    | .str b =>
      if h : a = b then isTrue (by rw [h]) else isFalse (fun hc => h (Json.str.inj hc))
    | .arr _ => isFalse nofun
    | .obj _ => isFalse nofun
  | .arr a, b =>
    match b with
    | .null => isFalse nofun
    | .bool _ => isFalse nofun
    | .num _ => isFalse nofun
    | .str _ => isFalse nofun
    | .arr b =>
      match Json.decEqList a b with
      | isTrue h => isTrue (by rw [h])
      | isFalse h => isFalse (fun hc => h (Json.arr.inj hc))
    | .obj _ => isFalse nofun
  | .obj a, b =>
    match b with
    | .null => isFalse nofun
    | .bool _ => isFalse nofun
    | .num _ => isFalse nofun
    | .str _ => isFalse nofun
    | .arr _ => isFalse nofun
    | .obj b =>
      match Json.decEqKVs a b with
      | isTrue h => isTrue (by rw [h])
      | isFalse h => isFalse (fun hc => h (Json.obj.inj hc))

/-- Decidable equality of element lists. -/
def Json.decEqList : (a b : List Json) → Decidable (a = b)
  | [], [] => isTrue rfl
  | [], _ :: _ => isFalse nofun
  | _ :: _, [] => isFalse nofun
  | x :: xs, y :: ys =>
    match Json.decEq x y with
    | isTrue h1 =>
      match Json.decEqList xs ys with
      | isTrue h2 => isTrue (by rw [h1, h2])
      | isFalse h2 => isFalse (fun hc => h2 (List.cons.inj hc).2)
    | isFalse h1 => isFalse (fun hc => h1 (List.cons.inj hc).1)

/-- Decidable equality of member lists. -/
def Json.decEqKVs : (a b : List (String × Json)) → Decidable (a = b)
  | [], [] => isTrue rfl
  | [], _ :: _ => isFalse nofun
  | _ :: _, [] => isFalse nofun
  | (k1, v1) :: xs, (k2, v2) :: ys =>
    if hk : k1 = k2 then
      match Json.decEq v1 v2 with
      | isTrue h1 =>
        match Json.decEqKVs xs ys with
        | isTrue h2 => isTrue (by rw [hk, h1, h2])
        | isFalse h2 => isFalse (fun hc => h2 (List.cons.inj hc).2)
      | isFalse h1 =>
        isFalse (fun hc => h1 (congrArg Prod.snd (List.cons.inj hc).1))
    else isFalse (fun hc => hk (congrArg Prod.fst (List.cons.inj hc).1))

end

instance : DecidableEq Json := Json.decEq

/-- Decimal digit character, `digitChar 3 = '3'`. -/
def digitChar (n : Nat) : Char := Char.ofNat (48 + n)

/-- The decimal rendering of a natural number, as Python `repr` writes it
(no leading zeros, `natDigits 0 = ['0']`). -/
def natDigits (n : Nat) : List Char :=
  if n < 10 then [digitChar n] else natDigits (n / 10) ++ [digitChar (n % 10)]
termination_by n
decreasing_by
  exact Nat.div_lt_self (by omega) (by omega)

/-- Decimal rendering of an integer (`json.dumps` output for Python ints). -/
def intChars (i : Int) : List Char :=
  if i < 0 then '-' :: natDigits i.natAbs else natDigits i.natAbs

/-- Lower-case hexadecimal digit, as Python's `\uXXXX` escapes use. -/
def hexDigitChar (n : Nat) : Char :=
  if n < 10 then Char.ofNat (48 + n) else Char.ofNat (87 + n)

/-- Four-digit lower-case hex rendering of `n % 65536`. -/
def hex4 (n : Nat) : List Char :=
  [hexDigitChar (n / 4096 % 16), hexDigitChar (n / 256 % 16),
   hexDigitChar (n / 16 % 16), hexDigitChar (n % 16)]

/-- How `json.dumps` (with its default `ensure_ascii=True`) writes one
character of a string: the two-character escapes for quote, backslash and
the C0 controls that have them, `\uXXXX` for the other controls and all
non-ASCII characters (a surrogate pair above U+FFFF), and the character
itself for printable ASCII. -/
def escapeChar (c : Char) : List Char :=
  if c = '"' then ['\\', '"']
  else if c = '\\' then ['\\', '\\']
  else if c = '\n' then ['\\', 'n']
  else if c = '\t' then ['\\', 't']
  else if c = '\r' then ['\\', 'r']
  else if c = '\x08' then ['\\', 'b']
  else if c = '\x0c' then ['\\', 'f']
  else if c.toNat < 32 ∨ 126 < c.toNat then
    if c.toNat ≤ 65535 then '\\' :: 'u' :: hex4 c.toNat
    else '\\' :: 'u' :: hex4 (55296 + (c.toNat - 65536) / 1024) ++
         '\\' :: 'u' :: hex4 (56320 + (c.toNat - 65536) % 1024)
  else [c]

/-- `json.dumps` escaping of a whole string body. -/
def escapeList : List Char → List Char
  | [] => []
  | c :: r => escapeChar c ++ escapeList r

mutual

/-- The characters `json.dumps` produces for a value (default separators:
`", "` between items, `": "` after keys). -/
def printVal : Json → List Char
  | .null => ['n', 'u', 'l', 'l']
  | .num i => intChars i
  | .bool true => ['t', 'r', 'u', 'e']
  | .str s => '"' :: escapeList s.data ++ ['"']
  | .bool false => ['f', 'a', 'l', 's', 'e']
  | .arr [] => ['[', ']']
  | .arr (x :: xs) => '[' :: printVal x ++ printElems xs ++ [']']
  | .obj [] => ['{', '}']
  | .obj (kv :: kvs) => '{' :: printMember kv ++ printMembers kvs ++ ['}']

/-- `", "`-separated rendering of the remaining array elements. -/
def printElems : List Json → List Char
  | [] => []
  | x :: xs => ',' :: ' ' :: printVal x ++ printElems xs

/-- One `"key": value` member. -/
def printMember : String × Json → List Char
  | (k, v) => '"' :: escapeList k.data ++ '"' :: ':' :: ' ' :: printVal v

/-- `", "`-separated rendering of the remaining object members. -/
def printMembers : List (String × Json) → List Char
  | [] => []
  | kv :: kvs => ',' :: ' ' :: printMember kv ++ printMembers kvs

end

/-- `json.dumps`. -/
def Json.dumps (v : Json) : String := String.mk (printVal v)

/-- JSON whitespace. -/
def isWs (c : Char) : Bool := c = ' ' || c = '\t' || c = '\n' || c = '\r'

/-- Skip JSON whitespace. -/
def skipWs : List Char → List Char
  | [] => []
  | c :: r => if isWs c then skipWs r else c :: r

/-- Value of one hexadecimal digit character. -/
def hexVal (c : Char) : Option Nat :=
  if 48 ≤ c.toNat ∧ c.toNat ≤ 57 then some (c.toNat - 48)
  else if 97 ≤ c.toNat ∧ c.toNat ≤ 102 then some (c.toNat - 87)
  else if 65 ≤ c.toNat ∧ c.toNat ≤ 70 then some (c.toNat - 55)
  else none

/-- Value of a `\uXXXX` quadruple. -/
def hexQuad (a b c d : Char) : Option Nat := do
  let va ← hexVal a
  let vb ← hexVal b
  let vc ← hexVal c
  let vd ← hexVal d
  pure (va * 4096 + vb * 256 + vc * 16 + vd)

/-- The single-character string escapes `json.loads` accepts. -/
def escDecode (e : Char) : Option Char :=
  if e = '"' then some '"'
  else if e = '\\' then some '\\'
  else if e = '/' then some '/'
  else if e = 'b' then some '\x08'
  else if e = 'f' then some '\x0c'
  else if e = 'n' then some '\n'
  else if e = 'r' then some '\r'
  else if e = 't' then some '\t'
  else none

/-- Prepend a decoded character to a string-parse result. -/
def consChar (c : Char) : Option (List Char × List Char) → Option (List Char × List Char)
  | none => none
  | some (s, r) => some (c :: s, r)

mutual

/-- Parse a JSON string body after the opening quote, as `json.loads`
(strict mode: raw control characters are rejected).  A high surrogate in a
`\uXXXX` escape must be followed by a low one (as `json.dumps` emits them;
Lean characters cannot carry lone surrogates). -/
def parseStringBody : List Char → Option (List Char × List Char)
  | [] => none
  | c :: r =>
    if c = '"' then some ([], r)
    else if c = '\\' then parseEscape r
    else if c.toNat < 32 then none
    else consChar c (parseStringBody r)

/-- Parse what follows a backslash inside a string. -/
def parseEscape : List Char → Option (List Char × List Char)
  | [] => none
  | e :: r =>
    if e = 'u' then
      match r with
      | a :: b :: c :: d :: r2 =>
        match hexQuad a b c d with
        | none => none
        | some h =>
          if 55296 ≤ h ∧ h ≤ 56319 then parseLowSurrogate h r2
          else if 56320 ≤ h ∧ h ≤ 57343 then none
          else consChar (Char.ofNat h) (parseStringBody r2)
      | _ => none
    else
      match escDecode e with
      | some c => consChar c (parseStringBody r)
      | none => none

/-- Parse the low half of a surrogate pair (`h` is the high half). -/
def parseLowSurrogate (h : Nat) : List Char → Option (List Char × List Char)
  | s :: u :: a :: b :: c :: d :: r2 =>
    if s = '\\' ∧ u = 'u' then
      match hexQuad a b c d with
      | none => none
      | some l =>
        if 56320 ≤ l ∧ l ≤ 57343 then
          consChar (Char.ofNat (65536 + (h - 55296) * 1024 + (l - 56320)))
            (parseStringBody r2)
        else none
    else none
  | _ => none

end

/-- Accumulate a run of decimal digits (the caller has seen the first one). -/
def parseDigitsAux : List Char → Nat → Nat × List Char
  | [], acc => (acc, [])
  | c :: r, acc =>
    if c.isDigit then parseDigitsAux r (10 * acc + (c.toNat - 48)) else (acc, c :: r)

/-- Python-dict insertion with update-in-place semantics: an existing key
keeps its position and gets the new value, a new key is appended. -/
def insertKV {α : Type} (l : List (String × α)) (k : String) (v : α) : List (String × α) :=
  if (l.map Prod.fst).contains k then
    l.map (fun p => if p.1 = k then (k, v) else p)
  else l ++ [(k, v)]

/-- First-match association lookup (Python `dict.get` on unique keys). -/
def lookupKV {α : Type} (l : List (String × α)) (k : String) : Option α :=
  match l with
  | [] => none
  | (k2, v) :: r => if k2 = k then some v else lookupKV r k

/-- How Python builds a dict from parsed members: later duplicates update
the first occurrence in place. -/
def dedupKeys (kvs : List (String × Json)) : List (String × Json) :=
  kvs.foldl (fun acc kv => insertKV acc kv.1 kv.2) []

mutual

/-- Parse one JSON value, as `json.loads` reads it.  `fuel` only bounds the
recursion depth; `Json.loads` supplies more than any input can consume. -/
def parseVal : Nat → List Char → Option (Json × List Char)
  | 0, _ => none
  | fuel + 1, cs =>
    match skipWs cs with
    | [] => none
    | c :: r =>
      if c = 'n' then
        match r with
        | 'u' :: 'l' :: 'l' :: r2 => some (.null, r2)
        | _ => none
      else if c = 't' then
        match r with
        | 'r' :: 'u' :: 'e' :: r2 => some (.bool true, r2)
        | _ => none
      else if c = 'f' then
        match r with
        | 'a' :: 'l' :: 's' :: 'e' :: r2 => some (.bool false, r2)
        | _ => none
      else if c = '"' then
        match parseStringBody r with
        | some (s, r2) => some (.str (String.mk s), r2)
        | none => none
      else if c = '[' then
        match skipWs r with
        | [] => none
        | c2 :: r2 =>
          if c2 = ']' then some (.arr [], r2)
          else
            match parseVal fuel (c2 :: r2) with
            | some (v, r3) =>
              match parseArrTail fuel r3 with
              | some (vs, r4) => some (.arr (v :: vs), r4)
              | none => none
            | none => none
      else if c = '{' then
        match skipWs r with
        | [] => none
        | c2 :: r2 =>
          if c2 = '}' then some (.obj [], r2)
          else
            match parseMember fuel (c2 :: r2) with
            | some (kv, r3) =>
              match parseObjTail fuel r3 with
              | some (kvs, r4) => some (.obj (dedupKeys (kv :: kvs)), r4)
              | none => none
            | none => none
      else if c = '-' then
        match r with
        | c2 :: r2 =>
          if c2.isDigit then
            let p := parseDigitsAux r2 (c2.toNat - 48)
            some (.num (-(p.1 : Int)), p.2)
          else none
        | [] => none
      else if c.isDigit then
        let p := parseDigitsAux r (c.toNat - 48)
        some (.num (p.1 : Int), p.2)
      else none

/-- Parse the rest of an array after an element: `, element ...` or `]`. -/
def parseArrTail : Nat → List Char → Option (List Json × List Char)
  | 0, _ => none
  | fuel + 1, cs =>
    match skipWs cs with
    | [] => none
    | c :: r =>
      if c = ']' then some ([], r)
      else if c = ',' then
        match parseVal fuel r with
        | some (v, r2) =>
          match parseArrTail fuel r2 with
          | some (vs, r3) => some (v :: vs, r3)
          | none => none
        | none => none
      else none

/-- Parse one `"key": value` object member. -/
def parseMember : Nat → List Char → Option ((String × Json) × List Char)
  | 0, _ => none
  | fuel + 1, cs =>
    match skipWs cs with
    | [] => none
    | c :: r =>
      if c = '"' then
        match parseStringBody r with
        | some (k, r2) =>
          match skipWs r2 with
          | [] => none
          | c2 :: r3 =>
            if c2 = ':' then
              match parseVal fuel r3 with
              | some (v, r4) => some ((String.mk k, v), r4)
              | none => none
            else none
        | none => none
      else none

/-- Parse the rest of an object after a member: `, member ...` or `}`. -/
def parseObjTail : Nat → List Char → Option (List (String × Json) × List Char)
  | 0, _ => none
  | fuel + 1, cs =>
    match skipWs cs with
    | [] => none
    | c :: r =>
      if c = '}' then some ([], r)
      else if c = ',' then
        match parseMember fuel r with
        | some (kv, r2) =>
          match parseObjTail fuel r2 with
          | some (kvs, r3) => some (kv :: kvs, r3)
          | none => none
        | none => none
      else none

end

/-- `json.loads`: parse one document and require only whitespace after it.
(The fuel is a modelling artifact bounding recursion depth; `2·n + 2` is
more than any input of `n` characters can consume.) -/
def Json.loads (s : String) : Option Json :=
  match parseVal (2 * s.data.length + 2) s.data with
  | some (v, r) => if skipWs r = [] then some v else none
  | none => none

/-- The input does not continue with a digit (a printed number is maximal). -/
def noDigit : List Char → Bool
  | [] => true
  | c :: _ => !c.isDigit

mutual

/-- Parser-fuel requirement of a value: an upper bound on the recursion
depth `parseVal` needs to read the value back. -/
def fsizeV : Json → Nat
  | .null => 1
  | .bool _ => 1
  | .num _ => 1
  | .str _ => 1
  | .arr xs => 2 + fsizeElems xs
  | .obj kvs => 2 + fsizeMembers kvs

/-- Fuel requirement of an array tail. -/
def fsizeElems : List Json → Nat
  | [] => 0
  | x :: xs => fsizeV x + 2 + fsizeElems xs

/-- Fuel requirement of an object tail. -/
def fsizeMembers : List (String × Json) → Nat
  | [] => 0
  | kv :: kvs => fsizeV kv.2 + 2 + fsizeMembers kvs

end

/-- No string occurs twice (Python `dict` keys are unique). -/
def Json.nodupKeys (ks : List String) : Bool := decide ks.Nodup

mutual

/-- Well-formedness of a `Json` value as an image of Python data: every
object's keys are distinct (they model `dict`s). -/
def Json.wf : Json → Bool
  | .null => true
  | .bool _ => true
  | .num _ => true
  | .str _ => true
  | .arr xs => Json.wfList xs
  | .obj kvs => Json.nodupKeys (kvs.map Prod.fst) && Json.wfKVs kvs

/-- All elements well-formed. -/
def Json.wfList : List Json → Bool
  | [] => true
  | x :: xs => Json.wf x && Json.wfList xs

/-- All member values well-formed. -/
def Json.wfKVs : List (String × Json) → Bool
  | [] => true
  | kv :: kvs => Json.wf kv.2 && Json.wfKVs kvs

end

/-! ## Schema model (`src/lmm/schema/`) -/

/-- `delta.py`: `DeltaKind`. -/
inductive DeltaKind where
  | tick | message | knot_lifecycle | observation | bead_ref | bead_write
  | bead_version | tool_call | tool_result | microagent | hypothesis | trust
deriving DecidableEq

/-- The `StrEnum` value of a `DeltaKind`. -/
def deltaKindStr : DeltaKind → String
  | .tick => "tick"
  | .message => "message"
  | .knot_lifecycle => "knot_lifecycle"
  | .observation => "observation"
  | .bead_ref => "bead_ref"
  | .bead_write => "bead_write"
  | .bead_version => "bead_version"
  | .tool_call => "tool_call"
  | .tool_result => "tool_result"
  | .microagent => "microagent"
  | .hypothesis => "hypothesis"
  | .trust => "trust"

/-- `DeltaKind(value)`: enum lookup by value. -/
def deltaKindOfStr (s : String) : Option DeltaKind :=
  if s = "tick" then some .tick
  else if s = "message" then some .message
  else if s = "knot_lifecycle" then some .knot_lifecycle
  else if s = "observation" then some .observation
  else if s = "bead_ref" then some .bead_ref
  else if s = "bead_write" then some .bead_write
  else if s = "bead_version" then some .bead_version
  else if s = "tool_call" then some .tool_call
  else if s = "tool_result" then some .tool_result
  else if s = "microagent" then some .microagent
  else if s = "hypothesis" then some .hypothesis
  else if s = "trust" then some .trust
  else none

/-- `delta.py`: `ProvenanceKind`. -/
inductive ProvenanceKind where
  | user | assistant | tool | perception | system | dream
deriving DecidableEq

/-- The `StrEnum` value of a `ProvenanceKind`. -/
def provenanceKindStr : ProvenanceKind → String
  | .user => "user"
  | .assistant => "assistant"
  | .tool => "tool"
  | .perception => "perception"
  | .system => "system"
  | .dream => "dream"

/-- `ProvenanceKind(value)`: enum lookup by value. -/
def provenanceKindOfStr (s : String) : Option ProvenanceKind :=
  if s = "user" then some .user
  else if s = "assistant" then some .assistant
  else if s = "tool" then some .tool
  else if s = "perception" then some .perception
  else if s = "system" then some .system
  else if s = "dream" then some .dream
  else none

/-- `delta.py`: `Provenance` (pydantic model; all-optional free-text links). -/
structure Provenance where
  kind : ProvenanceKind
  source : Option String := none
  model : Option String := none
  tool : Option String := none
  episode_id : Option String := none
  knot_id : Option String := none
deriving DecidableEq

/-- `delta.py`: `DeltaRefs` (collection fields default to empty lists). -/
structure DeltaRefs where
  beads : List Json
  knots : List String
  episodes : List String
  deltas : List String
deriving DecidableEq

/-- `delta.py`: `GenericDelta`.  `ts : datetime` is represented by its
ISO-8601 rendering (`isoformat`/`fromisoformat` are mutually inverse on
it); `confidence : float` by a rational; `payload : dict[str, Any]` by an
insertion-ordered association list of `Json` values. -/
structure GenericDelta where
  id : String
  braid_id : String
  kind : DeltaKind
  ts : String
  provenance : Provenance
  confidence : ℚ
  payload : List (String × Json)
  refs : Option DeltaRefs
  tags : List String
deriving DecidableEq

/-- `bead.py`: `BeadType`. -/
inductive BeadType where
  | tool_bead | skill_bead | memory_bead | microagent_bead | reasoning_bead
deriving DecidableEq

/-- The `StrEnum` value of a `BeadType`. -/
def beadTypeStr : BeadType → String
  | .tool_bead => "tool_bead"
  | .skill_bead => "skill_bead"
  | .memory_bead => "memory_bead"
  | .microagent_bead => "microagent_bead"
  | .reasoning_bead => "reasoning_bead"

/-- `bead.py`: `BeadRef`. -/
structure BeadRef where
  bead_id : String
  bead_version_id : Option String := none
  role : String := "used"
deriving DecidableEq

/-- `bead.py`: `BeadVersion` (`created_ts` is the ISO rendering of the
creation instant, as the store writes it). -/
structure BeadVersion where
  id : String
  bead_id : String
  type : BeadType
  created_ts : String
  data : List (String × Json)
deriving DecidableEq

/-- `bead.py`: `Bead`; `versions : dict[str, BeadVersion]` becomes an
insertion-ordered association list. -/
structure Bead where
  id : String
  type : BeadType
  active_version_id : Option String := none
  versions : List (String × BeadVersion) := []
deriving DecidableEq

/-- The two-key dict `commit_knot` builds for `Knot.delta_range`
(`{"start_delta_id": ..., "end_delta_id": ...}`). -/
structure DeltaRange where
  start_delta_id : String
  end_delta_id : String
deriving DecidableEq

/-- `knot.py`: `Knot`.  The `list[dict]`-typed tool/hypothesis fields are
lists of `Json` documents; `metrics`/`inbox_watermark` are `Json` dicts. -/
structure Knot where
  id : String
  braid_id : String
  primary_episode_id : String
  start_ts : String
  end_ts : String
  delta_range : DeltaRange
  inbox_watermark : List (String × Json)
  arrivals_during : List String
  summary : String
  thought_summary_bead_ref : Option BeadRef
  planned_tools : List Json
  executed_tools : List Json
  hypotheses : List Json
  metrics : List (String × Json)
deriving DecidableEq

/-- `episode.py`: `EpisodeEdgeType`. -/
inductive EpisodeEdgeType where
  | related_to | forked_from | resumed_from | soft_link | contradicts | depends_on
deriving DecidableEq

/-- `episode.py`: `EpisodeEdge`. -/
structure EpisodeEdge where
  type : EpisodeEdgeType
  to_episode_id : String
  confidence : ℚ
deriving DecidableEq

/-- `episode.py`: `Episode`.  Note: the source class defines no `state`
field and the module defines no `EpisodeState`, although both stores name
`EpisodeState` in their imports from it and read `episode.state`. -/
structure Episode where
  id : String
  braid_id : String
  labels : List (String × Json)
  primary_knot_span : List (String × String)
  knot_refs : List String
  edges : List EpisodeEdge
  summary_cache : List (String × Json)
  anchor_quotes : List Json
deriving DecidableEq

/-- Pydantic construction-time validation failure (`ValidationError`). -/
inductive ValidationError where
  | confidence_out_of_range
deriving DecidableEq

/-- Python runtime errors the store code can raise. -/
inductive PyError where
  | attributeError
deriving DecidableEq

/-- Constructing a `GenericDelta` with an explicit confidence: pydantic
validates `Field(ge=0.0, le=1.0)` at construction time and raises a
`ValidationError` otherwise; nothing is produced on failure. -/
def GenericDelta.construct (id braid_id : String) (kind : DeltaKind) (ts : String)
    (provenance : Provenance) (confidence : ℚ) (payload : List (String × Json))
    (refs : Option DeltaRefs) (tags : List String) : Except ValidationError GenericDelta :=
  if 0 ≤ confidence ∧ confidence ≤ 1 then
    .ok { id, braid_id, kind, ts, provenance, confidence, payload, refs, tags }
  else .error .confidence_out_of_range

/-- Constructing a `GenericDelta` with only the required fields: the
defaults of `delta.py` (`confidence = 0.5`, empty payload and tags,
`refs = None`). -/
def GenericDelta.construct_default (id braid_id : String) (kind : DeltaKind)
    (ts : String) (provenance : Provenance) : GenericDelta :=
  { id, braid_id, kind, ts, provenance, confidence := 1 / 2, payload := [],
    refs := none, tags := [] }

/-- Constructing an `EpisodeEdge`: `confidence` is validated against
`[0.0, 1.0]` at construction time. -/
def EpisodeEdge.construct (type : EpisodeEdgeType) (to_episode_id : String)
    (confidence : ℚ) : Except ValidationError EpisodeEdge :=
  if 0 ≤ confidence ∧ confidence ≤ 1 then
    .ok { type, to_episode_id, confidence }
  else .error .confidence_out_of_range

/-- `DeltaRefs()` with no arguments: every collection field defaults empty. -/
def DeltaRefs.construct_default : DeltaRefs :=
  { beads := [], knots := [], episodes := [], deltas := [] }

/-- `Knot(...)` with only the required fields: the collection-valued
fields default to empty containers. -/
def Knot.construct_default (id braid_id primary_episode_id start_ts end_ts : String)
    (delta_range : DeltaRange) : Knot :=
  { id, braid_id, primary_episode_id, start_ts, end_ts, delta_range,
    inbox_watermark := [], arrivals_during := [], summary := "",
    thought_summary_bead_ref := none, planned_tools := [], executed_tools := [],
    hypotheses := [], metrics := [] }

/-- `Episode(...)` with only the required fields.  `labels` defaults to
`{"topics": [], "intents": [], "modalities": []}` (a `default_factory`
building that dict), the other collection fields default empty. -/
def Episode.construct_default (id braid_id : String) : Episode :=
  { id, braid_id,
    labels := [("topics", .arr []), ("intents", .arr []), ("modalities", .arr [])],
    primary_knot_span := [], knot_refs := [], edges := [], summary_cache := [],
    anchor_quotes := [] }

/-! ## Generators and serialization helpers -/

/-- The `uuid4()` stream: the `n`-th fresh id.  Distinctness of distinct
draws is what the stores rely on. -/
def genId (n : Nat) : String := String.mk ('u' :: natDigits n)

/-- The `datetime.now(timezone.utc).isoformat()` stream: the ISO rendering
of the `n`-th clock reading, zero-padded so that the lexicographic order
of the renderings is the chronological order, as it is for real ISO-8601
UTC timestamps. -/
def tsRender (n : Nat) : String :=
  String.mk (List.replicate (20 - (natDigits n).length) '0' ++ natDigits n)

/-- `x if x else d` on strings (Python `or`): the empty string is falsy. -/
def pyOrStr (s d : String) : String := if s = "" then d else s

/-- `knot_id or str(uuid4())`: `None` and `""` both fall back. -/
def pyOrId (o : Option String) (d : String) : String :=
  match o with
  | some s => if s = "" then d else s
  | none => d

/-- The last `n` elements, `l[-n:]` for `n > 0`. -/
def takeLast {α : Type} (l : List α) (n : Nat) : List α := l.drop (l.length - n)

/-- An optional string as pydantic serializes it (`None` → `null`). -/
def optStrJson : Option String → Json
  | none => .null
  | some s => .str s

/-- Reading an optional string field back (absent or `null` → `None`). -/
def optStrOfJson : Option Json → Option (Option String)
  | none => some none
  | some .null => some none
  | some (.str s) => some (some s)
  | some _ => none

/-- `Provenance.model_dump_json`, at the `Json` level: pydantic emits every
field, `None` as `null`. -/
def provToJson (p : Provenance) : Json :=
  .obj [("kind", .str (provenanceKindStr p.kind)), ("source", optStrJson p.source),
        ("model", optStrJson p.model), ("tool", optStrJson p.tool),
        ("episode_id", optStrJson p.episode_id), ("knot_id", optStrJson p.knot_id)]

/-- `Provenance.model_validate_json`, at the `Json` level: `kind` must be a
valid enum value, the optional fields default to `None` when absent. -/
def provOfJson : Json → Option Provenance
  | .obj kvs => do
    let pk ← match lookupKV kvs "kind" with
      | some (.str s) => provenanceKindOfStr s
      | _ => none
    let source ← optStrOfJson (lookupKV kvs "source")
    let model ← optStrOfJson (lookupKV kvs "model")
    let tool ← optStrOfJson (lookupKV kvs "tool")
    let episode_id ← optStrOfJson (lookupKV kvs "episode_id")
    let knot_id ← optStrOfJson (lookupKV kvs "knot_id")
    pure { kind := pk, source, model, tool, episode_id, knot_id }
  | _ => none

/-- `BeadRef.model_dump_json`, at the `Json` level. -/
def beadRefToJson (r : BeadRef) : Json :=
  .obj [("bead_id", .str r.bead_id), ("bead_version_id", optStrJson r.bead_version_id),
        ("role", .str r.role)]

/-- `BeadRef.model_validate_json`, at the `Json` level. -/
def beadRefOfJson : Json → Option BeadRef
  | .obj kvs => do
    let bead_id ← match lookupKV kvs "bead_id" with
      | some (.str s) => some s
      | _ => none
    let bead_version_id ← optStrOfJson (lookupKV kvs "bead_version_id")
    let role ← match lookupKV kvs "role" with
      | some (.str s) => some s
      | none => some "used"
      | _ => none
    pure { bead_id, bead_version_id, role }
  | _ => none

/-- A parsed document that must be a dict (pydantic `dict[str, Any]`). -/
def asObj : Json → Option (List (String × Json))
  | .obj kvs => some kvs
  | _ => none

/-- A parsed document that must be a list of strings (`list[str]`). -/
def asStrList : Json → Option (List String)
  | .arr xs => xs.mapM (fun x => match x with | .str s => some s | _ => none)
  | _ => none

/-- A parsed document that must be a list (`list[dict[str, Any]]` fields;
the store never inspects the elements). -/
def asList : Json → Option (List Json)
  | .arr xs => some xs
  | _ => none

/-- The payload of a delta is a Python dict: its image is a well-formed
JSON object. -/
def wfPayload (kvs : List (String × Json)) : Bool := Json.wf (.obj kvs)

/-! ## The reference backend (`src/lmm/stores/episodic.py`) -/

/-- `InMemoryEpisodicStore.__init__` state: the braid id and the backing
collections, plus the modelled `uuid4` (`gen`) and UTC-clock (`clock`)
streams the store draws from. -/
structure InMemoryEpisodicStore where
  braid_id : String
  deltas : List GenericDelta
  knots : List Knot
  beads : List (String × Bead)
  episodes : List (String × Episode)
  active_episode_id : Option String
  gen : Nat
  clock : Nat
deriving DecidableEq

/-- A fresh `InMemoryEpisodicStore(braid_id)`. -/
def InMemoryEpisodicStore.mk0 (braid_id : String) : InMemoryEpisodicStore :=
  { braid_id, deltas := [], knots := [], beads := [], episodes := [],
    active_episode_id := none, gen := 0, clock := 0 }

/-- `get_recent_deltas`: non-positive limits give `[]`, otherwise the
`limit`-element suffix (`self._deltas[-limit:]`). -/
def InMemoryEpisodicStore.get_recent_deltas (s : InMemoryEpisodicStore)
    (limit : Int) : List GenericDelta :=
  if limit ≤ 0 then [] else takeLast s.deltas limit.toNat

/-- `get_recent_knots`. -/
def InMemoryEpisodicStore.get_recent_knots (s : InMemoryEpisodicStore)
    (limit : Int) : List Knot :=
  if limit ≤ 0 then [] else takeLast s.knots limit.toNat

/-- `get_active_episode`. -/
def InMemoryEpisodicStore.get_active_episode (s : InMemoryEpisodicStore) :
    Option Episode :=
  match s.active_episode_id with
  | none => none
  | some i => lookupKV s.episodes i

/-- `set_active_episode_id`. -/
def InMemoryEpisodicStore.set_active_episode_id (s : InMemoryEpisodicStore)
    (episode_id : String) : InMemoryEpisodicStore :=
  { s with active_episode_id := some episode_id }

/-- `upsert_episode`: `self._episodes[ep.id] = ep` fully replaces the
stored episode. -/
def InMemoryEpisodicStore.upsert_episode (s : InMemoryEpisodicStore)
    (ep : Episode) : InMemoryEpisodicStore :=
  { s with episodes := insertKV s.episodes ep.id ep }

/-- `get_episode`. -/
def InMemoryEpisodicStore.get_episode (s : InMemoryEpisodicStore)
    (episode_id : String) : Option Episode :=
  lookupKV s.episodes episode_id

/-- `list_episodes(state=None, limit=50)`.  The source filters with
`e.state == state`, but the `Episode` class of `schema/episode.py` has no
`state` attribute (and the module defines no `EpisodeState`), so the
filter raises `AttributeError` on the first episode it reaches; with no
episodes the comprehension never evaluates `e.state`.  The filter value is
modelled as an opaque string since its type does not exist in the schema.
`eps[-limit:]` on a non-positive limit is Python slicing `eps[-limit:]`
with a non-negative index, i.e. `drop`. -/
def InMemoryEpisodicStore.list_episodes (s : InMemoryEpisodicStore)
    (state : Option String) (limit : Int) : Except PyError (List Episode) :=
  let eps := s.episodes.map Prod.snd
  match state with
  | none =>
    .ok (if 0 < limit then takeLast eps limit.toNat else eps.drop (-limit).toNat)
  | some _ =>
    if eps.isEmpty then
      .ok (if 0 < limit then takeLast ([] : List Episode) limit.toNat else [])
    else .error .attributeError

/-- `append_delta`: appends as given, no validation, no braid filter. -/
def InMemoryEpisodicStore.append_delta (s : InMemoryEpisodicStore)
    (delta : GenericDelta) : InMemoryEpisodicStore :=
  { s with deltas := s.deltas ++ [delta] }

/-- `upsert_bead_version`: create the bead on first write (the first write
fixes its type), always create a new version under a fresh uuid, repoint
`active_version_id`, return a `created` ref. -/
def InMemoryEpisodicStore.upsert_bead_version (s : InMemoryEpisodicStore)
    (bead_id : String) (bead_type : BeadType) (data : List (String × Json)) :
    InMemoryEpisodicStore × BeadRef :=
  let bead := match lookupKV s.beads bead_id with
    | some b => b
    | none => { id := bead_id, type := bead_type, active_version_id := none,
                versions := [] }
  let version_id := genId s.gen
  let v : BeadVersion :=
    { id := version_id, bead_id, type := bead_type, created_ts := tsRender s.clock,
      data }
  let bead2 :=
    { bead with
      versions := insertKV bead.versions version_id v,
      active_version_id := some version_id }
  let s2 :=
    { s with
      beads := insertKV s.beads bead_id bead2,
      gen := s.gen + 1,
      clock := s.clock + 1 }
  (s2, { bead_id, bead_version_id := some version_id, role := "created" })

/-- One row of `get_recent_bead_versions` (a Python dict; `braid_id` is
`none` when the backend's row dict carries no such key). -/
structure BeadVersionRow where
  bead_id : String
  bead_version_id : String
  braid_id : Option String
  type : String
  created_ts : String
  data : Json
deriving DecidableEq

/-- `get_recent_bead_versions`: walk the beads in insertion order
(optionally filtered by type), collect their versions in insertion order,
sort by `created_ts` (Python's stable sort), and keep the last `limit`
rows.  The reference backend's rows carry no `braid_id` key. -/
def InMemoryEpisodicStore.get_recent_bead_versions (s : InMemoryEpisodicStore)
    (bead_type : Option BeadType) (limit : Int) : List BeadVersionRow :=
  if limit ≤ 0 then []
  else
    let rows := (s.beads.map Prod.snd).flatMap (fun bead =>
      if match bead_type with | none => true | some t => bead.type = t then
        (bead.versions.map Prod.snd).map (fun v =>
          { bead_id := bead.id, bead_version_id := v.id, braid_id := none,
            type := beadTypeStr v.type, created_ts := v.created_ts,
            data := .obj v.data })
      else [])
    takeLast (rows.mergeSort (fun a b => decide (a.created_ts ≤ b.created_ts)))
      limit.toNat

/-- The keyword arguments of `commit_knot` (optional ones model the
Python defaults). -/
structure KnotArgs where
  primary_episode_id : String
  start_delta_id : String
  end_delta_id : String
  start_ts : String
  end_ts : String
  summary : String
  knot_id : Option String := none
  thought_summary_bead_ref : Option BeadRef := none
  arrivals_during : Option (List String) := none
  planned_tools : Option (List Json) := none
  executed_tools : Option (List Json) := none
deriving DecidableEq

/-- The `Knot` object `commit_knot` constructs from its arguments (both
backends build it identically); `kid` is the id actually used. -/
def knotOfArgs (braid_id kid : String) (a : KnotArgs) : Knot :=
  { id := kid, braid_id, primary_episode_id := a.primary_episode_id,
    start_ts := a.start_ts, end_ts := a.end_ts,
    delta_range := { start_delta_id := a.start_delta_id,
                     end_delta_id := a.end_delta_id },
    inbox_watermark := [], arrivals_during := a.arrivals_during.getD [],
    summary := a.summary, thought_summary_bead_ref := a.thought_summary_bead_ref,
    planned_tools := a.planned_tools.getD [],
    executed_tools := a.executed_tools.getD [], hypotheses := [], metrics := [] }

/-- `commit_knot`: construct the `Knot` (generating an id if none was
supplied), append it to the knot log — the referenced delta ids are never
looked up — and return it. -/
def InMemoryEpisodicStore.commit_knot (s : InMemoryEpisodicStore) (a : KnotArgs) :
    InMemoryEpisodicStore × Knot :=
  let kid := pyOrId a.knot_id (genId s.gen)
  let gen2 := match a.knot_id with
    | some k => if k = "" then s.gen + 1 else s.gen
    | none => s.gen + 1
  let knot := knotOfArgs s.braid_id kid a
  ({ s with knots := s.knots ++ [knot], gen := gen2 }, knot)

/-! ## The durable backend (`src/lmm/stores/neo4j_episodic.py`)

The graph is modelled by the lists of created nodes; the per-braid
sequence counters and active-episode pointer live on the braid root node
(`_ensure_braid` initializes them to `0` / `''`).  Nested fields are
stored as the strings `json.dumps` produces, exactly as the source writes
them into node properties. -/

/-- A `(:Delta {...})` node, with the properties `append_delta` sets. -/
structure DeltaNode where
  id : String
  braid_id : String
  seq : Nat
  kind : String
  ts : String
  confidence : ℚ
  provenance_json : String
  payload_json : String
  tags_json : String
deriving DecidableEq

/-- A `(:Knot {...})` node, with the properties `commit_knot` sets. -/
structure KnotNode where
  id : String
  braid_id : String
  seq : Nat
  primary_episode_id : String
  start_ts : String
  end_ts : String
  start_delta_id : String
  end_delta_id : String
  summary : String
  thought_bead_ref_json : Option String
  arrivals_json : String
  planned_tools_json : String
  executed_tools_json : String
deriving DecidableEq

/-- A `(:Bead {...})` node. -/
structure BeadNode where
  id : String
  type : String
  active_version_id : String
deriving DecidableEq

/-- A `(:BeadVersion {...})` node (the `HAS_VERSION` edge from its bead is
determined by `bead_id`). -/
structure BVNode where
  id : String
  bead_id : String
  braid_id : String
  type : String
  created_ts : String
  data_json : String
deriving DecidableEq

/-- The state of a `Neo4jEpisodicStore` and of the graph it talks to. -/
structure Neo4jEpisodicStore where
  braid_id : String
  next_delta_seq : Nat
  next_knot_seq : Nat
  active_episode_id : String
  deltaNodes : List DeltaNode
  knotNodes : List KnotNode
  beadNodes : List BeadNode
  versionNodes : List BVNode
  gen : Nat
  clock : Nat
deriving DecidableEq

/-- A fresh `Neo4jEpisodicStore` after `_ensure_schema`/`_ensure_braid` on
an empty graph. -/
def Neo4jEpisodicStore.mk0 (braid_id : String) : Neo4jEpisodicStore :=
  { braid_id, next_delta_seq := 0, next_knot_seq := 0, active_episode_id := "",
    deltaNodes := [], knotNodes := [], beadNodes := [], versionNodes := [],
    gen := 0, clock := 0 }

/-- The `Delta` node `append_delta` creates for a delta at sequence
number `seq`: nested fields are serialized with `json.dumps` /
`model_dump_json`; `refs` is not stored. -/
def deltaNodeOf (d : GenericDelta) (seq : Nat) : DeltaNode :=
  { id := d.id, braid_id := d.braid_id, seq, kind := deltaKindStr d.kind,
    ts := d.ts, confidence := d.confidence,
    provenance_json := Json.dumps (provToJson d.provenance),
    payload_json := Json.dumps (.obj d.payload),
    tags_json := Json.dumps (.arr (d.tags.map .str)) }

/-- `append_delta`: `_next_seq("next_delta_seq")` increments the braid
counter transactionally and the new value tags the created node. -/
def Neo4jEpisodicStore.append_delta (s : Neo4jEpisodicStore) (delta : GenericDelta) :
    Neo4jEpisodicStore :=
  let seq := s.next_delta_seq + 1
  { s with
    next_delta_seq := seq,
    deltaNodes := s.deltaNodes ++ [deltaNodeOf delta seq] }

/-- Rebuilding a `GenericDelta` from a node, as the read path of
`get_recent_deltas` does: enum lookup, `fromisoformat`, and `json.loads`
of the serialized properties; `refs` is never restored (`none`).  `none`
models the exception Python would raise on a malformed node. -/
def deltaOfNode (n : DeltaNode) : Option GenericDelta := do
  let kind ← deltaKindOfStr n.kind
  let prov ← (Json.loads n.provenance_json).bind provOfJson
  let payload ← (Json.loads (pyOrStr n.payload_json "\x7b\x7d")).bind asObj
  let tags ← (Json.loads (pyOrStr n.tags_json "[]")).bind asStrList
  pure { id := n.id, braid_id := n.braid_id, kind, ts := n.ts, provenance := prov,
         confidence := n.confidence, payload, refs := none, tags }

/-- `get_recent_deltas`: non-positive limits short-circuit to `[]`; the
query filters the braid's deltas, orders by `seq` descending, keeps
`limit` rows, and the rows are rebuilt in reverse (ascending) order. -/
def Neo4jEpisodicStore.get_recent_deltas (s : Neo4jEpisodicStore) (limit : Int) :
    Option (List GenericDelta) :=
  if limit ≤ 0 then some []
  else
    let rows := ((s.deltaNodes.filter (fun d => d.braid_id = s.braid_id)).mergeSort
      (fun a b => decide (b.seq ≤ a.seq))).take limit.toNat
    rows.reverse.mapM deltaOfNode

/-- The `Knot` node `commit_knot` creates at sequence number `seq` for the
knot it constructed: nested fields serialized, no `inbox_watermark`,
`hypotheses` or `metrics` properties. -/
def knotNodeOf (knot : Knot) (a : KnotArgs) (seq : Nat) : KnotNode :=
  { id := knot.id, braid_id := knot.braid_id, seq,
    primary_episode_id := knot.primary_episode_id, start_ts := knot.start_ts,
    end_ts := knot.end_ts, start_delta_id := a.start_delta_id,
    end_delta_id := a.end_delta_id, summary := knot.summary,
    thought_bead_ref_json :=
      a.thought_summary_bead_ref.map (fun r => Json.dumps (beadRefToJson r)),
    arrivals_json := Json.dumps (.arr (knot.arrivals_during.map .str)),
    planned_tools_json := Json.dumps (.arr knot.planned_tools),
    executed_tools_json := Json.dumps (.arr knot.executed_tools) }

def Neo4jEpisodicStore.commit_knot (s : Neo4jEpisodicStore) (a : KnotArgs) :
    Neo4jEpisodicStore × Knot :=
  let kid := pyOrId a.knot_id (genId s.gen)
  let gen2 := match a.knot_id with
    | some k => if k = "" then s.gen + 1 else s.gen
    | none => s.gen + 1
  let knot := knotOfArgs s.braid_id kid a
  let seq := s.next_knot_seq + 1
  let node : KnotNode := knotNodeOf knot a seq
  let s2 :=
    { s with
      next_knot_seq := seq,
      knotNodes := s.knotNodes ++ [node],
      gen := gen2 }
  (s2, knot)

/-- Rebuilding a `Knot` from a node, as `get_recent_knots` does; the
fields the node does not store (`inbox_watermark`, `hypotheses`,
`metrics`) take the schema defaults. -/
def knotOfNode (n : KnotNode) : Option Knot := do
  let thought ← match n.thought_bead_ref_json with
    | none => some none
    | some ref =>
      if ref = "" then some none
      else (Json.loads ref).bind beadRefOfJson |>.map some
  let arrivals ← (Json.loads (pyOrStr n.arrivals_json "[]")).bind asStrList
  let planned ← (Json.loads (pyOrStr n.planned_tools_json "[]")).bind asList
  let executed ← (Json.loads (pyOrStr n.executed_tools_json "[]")).bind asList
  pure { id := n.id, braid_id := n.braid_id,
         primary_episode_id := n.primary_episode_id, start_ts := n.start_ts,
         end_ts := n.end_ts,
         delta_range := { start_delta_id := n.start_delta_id,
                          end_delta_id := n.end_delta_id },
         inbox_watermark := [], arrivals_during := arrivals,
         summary := n.summary, thought_summary_bead_ref := thought,
         planned_tools := planned, executed_tools := executed, hypotheses := [],
         metrics := [] }

/-- `get_recent_knots`: by descending `seq`, `limit` rows, reversed. -/
def Neo4jEpisodicStore.get_recent_knots (s : Neo4jEpisodicStore) (limit : Int) :
    Option (List Knot) :=
  if limit ≤ 0 then some []
  else
    let rows := ((s.knotNodes.filter (fun k => k.braid_id = s.braid_id)).mergeSort
      (fun a b => decide (b.seq ≤ a.seq))).take limit.toNat
    rows.reverse.mapM knotOfNode

/-- `upsert_bead_version`: `MERGE` the bead (creation fixes its type; a
match only repoints `active_version_id`), `CREATE` the version node, link
it.  The braid id is stamped on the version node. -/
def Neo4jEpisodicStore.upsert_bead_version (s : Neo4jEpisodicStore)
    (bead_id : String) (bead_type : BeadType) (data : List (String × Json)) :
    Neo4jEpisodicStore × BeadRef :=
  let version_id := genId s.gen
  let created_ts := tsRender s.clock
  let beads2 :=
    if s.beadNodes.any (fun b => b.id = bead_id) then
      s.beadNodes.map (fun b =>
        if b.id = bead_id then { b with active_version_id := version_id } else b)
    else
      s.beadNodes ++ [{ id := bead_id, type := beadTypeStr bead_type,
                        active_version_id := version_id }]
  let node : BVNode :=
    { id := version_id, bead_id, braid_id := s.braid_id,
      type := beadTypeStr bead_type, created_ts,
      data_json := Json.dumps (.obj data) }
  let s2 :=
    { s with
      beadNodes := beads2,
      versionNodes := s.versionNodes ++ [node],
      gen := s.gen + 1,
      clock := s.clock + 1 }
  (s2, { bead_id, bead_version_id := some version_id, role := "created" })

/-- `get_recent_bead_versions`: the braid's version nodes (optionally
filtered by type) by descending `created_ts`, `limit` rows, rebuilt as
dicts — including a `braid_id` key — and reversed. -/
def Neo4jEpisodicStore.get_recent_bead_versions (s : Neo4jEpisodicStore)
    (bead_type : Option BeadType) (limit : Int) : List BeadVersionRow :=
  if limit ≤ 0 then []
  else
    let nodes := s.versionNodes.filter (fun v =>
      v.braid_id = s.braid_id &&
        match bead_type with | none => true | some t => v.type = beadTypeStr t)
    let rows := ((nodes.mergeSort (fun a b => decide (b.created_ts ≤ a.created_ts))).take
      limit.toNat).map (fun v =>
        { bead_id := v.bead_id, bead_version_id := v.id, braid_id := some v.braid_id,
          type := v.type, created_ts := v.created_ts,
          data := (Json.loads (pyOrStr v.data_json "\x7b\x7d")).getD .null })
    rows.reverse

/-- `set_active_episode_id`: a property update on the braid root node. -/
def Neo4jEpisodicStore.set_active_episode_id (s : Neo4jEpisodicStore)
    (episode_id : String) : Neo4jEpisodicStore :=
  { s with active_episode_id := episode_id }

/-- `upsert_episode` evaluates `str(ep.state.value)` while building the
query parameters, but the `Episode` class of `schema/episode.py` defines
no `state` attribute (nor does the module define the imported
`EpisodeState`), so every call raises `AttributeError` before any write
reaches the graph. -/
def Neo4jEpisodicStore.upsert_episode (s : Neo4jEpisodicStore) (ep : Episode) :
    Except PyError Neo4jEpisodicStore :=
  .error .attributeError

/-! ## Operation sequences -/

/-- A sequence of `append_delta` calls on the reference backend. -/
def InMemoryEpisodicStore.append_many (s : InMemoryEpisodicStore)
    (ds : List GenericDelta) : InMemoryEpisodicStore :=
  ds.foldl InMemoryEpisodicStore.append_delta s

/-- A sequence of `commit_knot` calls on the reference backend, collecting
the returned knots. -/
def InMemoryEpisodicStore.commit_many : InMemoryEpisodicStore → List KnotArgs →
    InMemoryEpisodicStore × List Knot
  | s, [] => (s, [])
  | s, a :: rest =>
    let r := s.commit_knot a
    let r2 := InMemoryEpisodicStore.commit_many r.1 rest
    (r2.1, r.2 :: r2.2)

/-- A sequence of `upsert_bead_version` calls for one bead on the
reference backend, collecting the returned refs. -/
def InMemoryEpisodicStore.upsert_many : InMemoryEpisodicStore → String →
    List (BeadType × List (String × Json)) → InMemoryEpisodicStore × List BeadRef
  | s, _, [] => (s, [])
  | s, bead_id, c :: rest =>
    let r := s.upsert_bead_version bead_id c.1 c.2
    let r2 := InMemoryEpisodicStore.upsert_many r.1 bead_id rest
    (r2.1, r.2 :: r2.2)

/-- A sequence of `append_delta` calls on the durable backend. -/
def Neo4jEpisodicStore.append_many (s : Neo4jEpisodicStore)
    (ds : List GenericDelta) : Neo4jEpisodicStore :=
  ds.foldl Neo4jEpisodicStore.append_delta s

/-- A sequence of `commit_knot` calls on the durable backend, collecting
the returned knots. -/
def Neo4jEpisodicStore.commit_many : Neo4jEpisodicStore → List KnotArgs →
    Neo4jEpisodicStore × List Knot
  | s, [] => (s, [])
  | s, a :: rest =>
    let r := s.commit_knot a
    let r2 := Neo4jEpisodicStore.commit_many r.1 rest
    (r2.1, r.2 :: r2.2)

/-- A sequence of `upsert_bead_version` calls for one bead on the durable
backend, collecting the returned refs. -/
def Neo4jEpisodicStore.upsert_many : Neo4jEpisodicStore → String →
    List (BeadType × List (String × Json)) → Neo4jEpisodicStore × List BeadRef
  | s, _, [] => (s, [])
  | s, bead_id, c :: rest =>
    let r := s.upsert_bead_version bead_id c.1 c.2
    let r2 := Neo4jEpisodicStore.upsert_many r.1 bead_id rest
    (r2.1, r.2 :: r2.2)

/-- A delta with its `refs` field dropped, as the durable backend's
read path reconstructs deltas. -/
def stripRefs (d : GenericDelta) : GenericDelta := { d with refs := none }

/-- The delta's payload is the image of a Python dict. -/
def wfDelta (d : GenericDelta) : Bool := Json.wf (.obj d.payload)

/-- The tool-call documents a `commit_knot` call carries are images of
Python data (dicts with unique keys at every level). -/
def wfKnotArgs (a : KnotArgs) : Bool :=
  Json.wfList (a.planned_tools.getD []) && Json.wfList (a.executed_tools.getD [])

/-! ## Concrete inputs used as evidence -/

/-- A concrete message delta carrying a non-`None` `refs` field. -/
def deltaWithRefs : GenericDelta :=
  { id := "d1", braid_id := "b", kind := .message,
    ts := "2026-01-01T00:00:00+00:00",
    provenance := { kind := .user },
    confidence := 1 / 2, payload := [("content", .str "hi")],
    refs := some { beads := [], knots := ["k1"], episodes := [], deltas := [] },
    tags := ["greeting"] }

/-! ## Round-trip and support lemmas -/

theorem hexVal_hexDigitChar {k : Nat} (h : k < 16) : hexVal (hexDigitChar k) = some k := by
  interval_cases k <;> decide

theorem char_isDigit_bounds {c : Char} (h : c.isDigit = true) :
    48 ≤ c.toNat ∧ c.toNat ≤ 57 := by
  simp [Char.isDigit] at h
  exact ⟨h.1, h.2⟩

theorem ne_of_isDigit {c d : Char} (h : c.isDigit = true) (hd : d.isDigit = false) :
    c ≠ d := by
  intro hc
  subst hc
  rw [h] at hd
  cases hd

theorem isWs_of_isDigit {c : Char} (h : c.isDigit = true) : isWs c = false := by
  rw [isWs]
  have h1 : c ≠ ' ' := ne_of_isDigit h (by decide)
  have h2 : c ≠ '\t' := ne_of_isDigit h (by decide)
  have h3 : c ≠ '\n' := ne_of_isDigit h (by decide)
  have h4 : c ≠ '\r' := ne_of_isDigit h (by decide)
  simp [h1, h2, h3, h4]

theorem skipWs_cons {c : Char} (h : isWs c = false) (r : List Char) :
    skipWs (c :: r) = c :: r := by
  rw [skipWs, h]
  simp

theorem hexQuad_hex4 {n : Nat} (h : n ≤ 65535) :
    hexQuad (hexDigitChar (n / 4096 % 16)) (hexDigitChar (n / 256 % 16))
      (hexDigitChar (n / 16 % 16)) (hexDigitChar (n % 16)) = some n := by
  rw [hexQuad, hexVal_hexDigitChar (by omega), hexVal_hexDigitChar (by omega),
    hexVal_hexDigitChar (by omega), hexVal_hexDigitChar (by omega)]
  simp only [Option.bind_eq_bind, Option.some_bind, Option.pure_def]
  congr 1
  omega

theorem char_valid (c : Char) : c.toNat < 55296 ∨ (57343 < c.toNat ∧ c.toNat < 1114112) := by
  rcases c.valid with h | ⟨h1, h2⟩
  · left
    exact h
  · right
    exact ⟨h1, h2⟩

theorem escapeChar_parse (c : Char) (tail : List Char) :
    parseStringBody (escapeChar c ++ tail) = consChar c (parseStringBody tail) := by
  have hv := char_valid c
  by_cases h1 : c = '"'
  · subst h1; simp [escapeChar, parseStringBody, parseEscape, escDecode]
  by_cases h2 : c = '\\'
  · subst h2; simp [escapeChar, parseStringBody, parseEscape, escDecode]
  by_cases h3 : c = '\n'
  · subst h3; simp [escapeChar, parseStringBody, parseEscape, escDecode]
  by_cases h4 : c = '\t'
  · subst h4; simp [escapeChar, parseStringBody, parseEscape, escDecode]
  by_cases h5 : c = '\r'
  · subst h5; simp [escapeChar, parseStringBody, parseEscape, escDecode]
  by_cases h6 : c = '\x08'
  · subst h6; simp [escapeChar, parseStringBody, parseEscape, escDecode]
  by_cases h7 : c = '\x0c'
  · subst h7; simp [escapeChar, parseStringBody, parseEscape, escDecode]
  by_cases h8 : c.toNat < 32 ∨ 126 < c.toNat
  · by_cases h9 : c.toNat ≤ 65535
    · rw [escapeChar, if_neg h1, if_neg h2, if_neg h3, if_neg h4, if_neg h5, if_neg h6,
        if_neg h7, if_pos h8, if_pos h9]
      simp only [hex4, List.cons_append]
      rw [parseStringBody]
      rw [if_neg (by decide), if_pos rfl]
      rw [parseEscape]
      rw [if_pos rfl]
      rw [hexQuad_hex4 h9]
      simp only [List.nil_append]
      rw [if_neg (by omega), if_neg (by omega), Char.ofNat_toNat]
    · rw [escapeChar, if_neg h1, if_neg h2, if_neg h3, if_neg h4, if_neg h5, if_neg h6,
        if_neg h7, if_pos h8, if_neg h9]
      simp only [hex4, List.cons_append, List.append_assoc]
      rw [parseStringBody]
      rw [if_neg (by decide), if_pos rfl]
      rw [parseEscape]
      rw [if_pos rfl]
      rw [hexQuad_hex4 (by omega)]
      simp only [List.nil_append]
      rw [if_pos (by omega)]
      rw [parseLowSurrogate]
      rw [if_pos (by exact ⟨rfl, rfl⟩)]
      rw [hexQuad_hex4 (by omega)]
      simp only [List.nil_append]
      rw [if_pos (by omega)]
      have : 65536 + (55296 + (c.toNat - 65536) / 1024 - 55296) * 1024 +
          (56320 + (c.toNat - 65536) % 1024 - 56320) = c.toNat := by omega
      rw [this, Char.ofNat_toNat]
  · rw [escapeChar, if_neg h1, if_neg h2, if_neg h3, if_neg h4, if_neg h5, if_neg h6,
      if_neg h7, if_neg h8]
    simp only [List.cons_append, List.nil_append]
    rw [parseStringBody, if_neg h1, if_neg h2, if_neg (by omega)]

theorem parseStringBody_escapeList (s : List Char) (rest : List Char) :
    parseStringBody (escapeList s ++ '"' :: rest) = some (s, rest) := by
  induction s with
  | nil => simp [escapeList, parseStringBody]
  | cons c s ih =>
    rw [escapeList, List.append_assoc, escapeChar_parse, ih, consChar]

theorem digitChar_toNat {d : Nat} (h : d < 10) : (digitChar d).toNat = 48 + d := by
  interval_cases d <;> decide

theorem digitChar_isDigit {d : Nat} (h : d < 10) : (digitChar d).isDigit = true := by
  interval_cases d <;> decide

theorem natDigits_all_digits (n : Nat) : ∀ c ∈ natDigits n, c.isDigit = true := by
  induction n using Nat.strong_induction_on with
  | _ n ih =>
    rw [natDigits]
    by_cases h : n < 10
    · rw [if_pos h]
      intro c hc
      rw [List.mem_singleton] at hc
      subst hc
      exact digitChar_isDigit h
    · rw [if_neg h]
      intro c hc
      rcases List.mem_append.mp hc with h2 | h2
      · exact ih (n / 10) (Nat.div_lt_self (by omega) (by omega)) c h2
      · rw [List.mem_singleton] at h2
        subst h2
        exact digitChar_isDigit (by omega)

theorem natDigits_ne_nil (n : Nat) : natDigits n ≠ [] := by
  rw [natDigits]
  by_cases h : n < 10
  · rw [if_pos h]; simp
  · rw [if_neg h]; simp

theorem parseDigitsAux_nodigit {rest : List Char} (h : noDigit rest = true) (acc : Nat) :
    parseDigitsAux rest acc = (acc, rest) := by
  cases rest with
  | nil => rfl
  | cons c r =>
    rw [noDigit] at h
    rw [parseDigitsAux, if_neg (by simpa using h)]

theorem parseDigitsAux_run {ds : List Char} (hds : ∀ c ∈ ds, c.isDigit = true)
    {rest : List Char} (h : noDigit rest = true) (acc : Nat) :
    parseDigitsAux (ds ++ rest) acc =
      (ds.foldl (fun a c => 10 * a + (c.toNat - 48)) acc, rest) := by
  induction ds generalizing acc with
  | nil => simpa using parseDigitsAux_nodigit h acc
  | cons c ds ih =>
    rw [List.cons_append, parseDigitsAux, if_pos (hds c (by simp))]
    rw [ih (fun c hc => hds c (by simp [hc]))]
    rfl

theorem foldl_natDigits (n : Nat) (acc : Nat) :
    (natDigits n).foldl (fun a c => 10 * a + (c.toNat - 48)) acc =
      acc * 10 ^ (natDigits n).length + n := by
  induction n using Nat.strong_induction_on generalizing acc with
  | _ n ih =>
    rw [natDigits]
    by_cases h : n < 10
    · rw [if_pos h]
      simp [List.foldl, digitChar_toNat h]
      omega
    · rw [if_neg h]
      rw [List.foldl_append, ih (n / 10) (Nat.div_lt_self (by omega) (by omega))]
      simp [List.foldl, digitChar_toNat (show n % 10 < 10 by omega)]
      rw [pow_succ]
      have : n / 10 * 10 + n % 10 = n := by omega
      ring_nf
      omega

theorem natDigits_parse (n : Nat) {rest : List Char} (hrest : noDigit rest = true) :
    ∃ c ds, natDigits n = c :: ds ∧ c.isDigit = true ∧
      parseDigitsAux (ds ++ rest) (c.toNat - 48) = (n, rest) := by
  rcases hcd : natDigits n with _ | ⟨c, ds⟩
  · exact absurd hcd (natDigits_ne_nil n)
  have hall := natDigits_all_digits n
  rw [hcd] at hall
  refine ⟨c, ds, rfl, hall c (by simp), ?_⟩
  rw [parseDigitsAux_run (fun x hx => hall x (by simp [hx])) hrest]
  have h2 := foldl_natDigits n 0
  rw [hcd] at h2
  simp only [List.foldl_cons, Nat.mul_zero, Nat.zero_add, Nat.zero_mul] at h2
  rw [h2]

theorem fsizeV_pos (v : Json) : 1 ≤ fsizeV v := by
  cases v <;> simp [fsizeV] <;> omega

theorem digit_head_facts {c : Char} (h : c.isDigit = true) :
    isWs c = false ∧ c ≠ 'n' ∧ c ≠ 't' ∧ c ≠ 'f' ∧ c ≠ '"' ∧ c ≠ '[' ∧
      c ≠ '{' ∧ c ≠ '-' ∧ c ≠ ']' ∧ c ≠ '}' ∧ c ≠ ',' := by
  exact ⟨isWs_of_isDigit h, ne_of_isDigit h (by decide), ne_of_isDigit h (by decide),
    ne_of_isDigit h (by decide), ne_of_isDigit h (by decide), ne_of_isDigit h (by decide),
    ne_of_isDigit h (by decide), ne_of_isDigit h (by decide), ne_of_isDigit h (by decide),
    ne_of_isDigit h (by decide), ne_of_isDigit h (by decide)⟩

theorem printVal_head (v : Json) :
    ∃ c r, printVal v = c :: r ∧ isWs c = false ∧ c ≠ ']' ∧ c ≠ '}' ∧ c ≠ ',' := by
  cases v with
  | null => exact ⟨'n', _, rfl, by decide, by decide, by decide, by decide⟩
  | bool b =>
    cases b with
    | true => exact ⟨'t', _, rfl, by decide, by decide, by decide, by decide⟩
    | false => exact ⟨'f', _, rfl, by decide, by decide, by decide, by decide⟩
  | num i =>
    rw [printVal, intChars]
    by_cases h : i < 0
    · rw [if_pos h]
      exact ⟨'-', _, rfl, by decide, by decide, by decide, by decide⟩
    · rw [if_neg h]
      rcases hcd : natDigits i.natAbs with _ | ⟨c, ds⟩
      · exact absurd hcd (natDigits_ne_nil _)
      have hc : c.isDigit = true := by
        have := natDigits_all_digits i.natAbs
        rw [hcd] at this
        exact this c (by simp)
      have hf := digit_head_facts hc
      exact ⟨c, ds, rfl, hf.1, hf.2.2.2.2.2.2.2.2.1, hf.2.2.2.2.2.2.2.2.2.1,
        hf.2.2.2.2.2.2.2.2.2.2⟩
  | str s => exact ⟨'"', _, rfl, by decide, by decide, by decide, by decide⟩
  | arr xs =>
    cases xs with
    | nil => exact ⟨'[', _, rfl, by decide, by decide, by decide, by decide⟩
    | cons x xs => exact ⟨'[', _, rfl, by decide, by decide, by decide, by decide⟩
  | obj kvs =>
    cases kvs with
    | nil => exact ⟨'{', _, rfl, by decide, by decide, by decide, by decide⟩
    | cons kv kvs => exact ⟨'{', _, rfl, by decide, by decide, by decide, by decide⟩

theorem noDigit_printElems (xs : List Json) (t : List Char) :
    noDigit (printElems xs ++ ']' :: t) = true := by
  cases xs with
  | nil => simp [printElems, noDigit]
  | cons x xs => simp [printElems, noDigit]

theorem noDigit_printMembers (kvs : List (String × Json)) (t : List Char) :
    noDigit (printMembers kvs ++ '}' :: t) = true := by
  cases kvs with
  | nil => simp [printMembers, noDigit]
  | cons kv kvs => simp [printMembers, noDigit]

theorem band_true {a b : Bool} (h : (a && b) = true) : a = true ∧ b = true := by
  simpa using h

theorem parseVal_ws (fuel : Nat) (cs : List Char) :
    parseVal fuel (' ' :: cs) = parseVal fuel cs := by
  cases fuel with
  | zero => rfl
  | succ f =>
    rw [parseVal, parseVal]
    have : skipWs (' ' :: cs) = skipWs cs := by rw [skipWs]; simp [isWs]
    rw [this]

theorem parseMember_ws (fuel : Nat) (cs : List Char) :
    parseMember fuel (' ' :: cs) = parseMember fuel cs := by
  cases fuel with
  | zero => rfl
  | succ f =>
    rw [parseMember, parseMember]
    have : skipWs (' ' :: cs) = skipWs cs := by rw [skipWs]; simp [isWs]
    rw [this]

theorem dedup_foldl_insertKV (kvs : List (String × Json)) :
    ∀ acc : List (String × Json), ((acc ++ kvs).map Prod.fst).Nodup →
      kvs.foldl (fun a kv => insertKV a kv.1 kv.2) acc = acc ++ kvs := by
  induction kvs with
  | nil => intro acc h; simp
  | cons kv kvs ih =>
    intro acc h
    rw [List.foldl_cons]
    have hk : kv.1 ∉ acc.map Prod.fst := by
      simp only [List.map_append, List.map_cons] at h
      have := (List.nodup_append.mp h).2.2
      intro hmem
      exact this hmem (by simp)
    have : insertKV acc kv.1 kv.2 = acc ++ [kv] := by
      rw [insertKV, if_neg (by rw [List.contains_iff_exists_mem_beq]; simpa using hk)]
    rw [this]
    have h2 : (((acc ++ [kv]) ++ kvs).map Prod.fst).Nodup := by
      rw [List.append_assoc]
      simpa using h
    rw [ih (acc ++ [kv]) h2]
    simp

theorem dedupKeys_of_nodup {kvs : List (String × Json)}
    (h : (kvs.map Prod.fst).Nodup) : dedupKeys kvs = kvs := by
  have := dedup_foldl_insertKV kvs [] (by simpa using h)
  simpa [dedupKeys] using this

mutual

theorem parseVal_printVal : ∀ (fuel : Nat) (v : Json) (rest : List Char),
    fsizeV v ≤ fuel → noDigit rest = true → Json.wf v = true →
    parseVal fuel (printVal v ++ rest) = some (v, rest)
  | 0, v, _, hf, _, _ => absurd hf (by have := fsizeV_pos v; omega)
  | fuel + 1, .null, rest, _, _, _ => by
    simp [printVal, parseVal, skipWs, isWs]
  | fuel + 1, .bool true, rest, _, _, _ => by
    simp [printVal, parseVal, skipWs, isWs]
  | fuel + 1, .bool false, rest, _, _, _ => by
    simp [printVal, parseVal, skipWs, isWs]
  | fuel + 1, .num i, rest, _, hr, _ => by
    rw [printVal, intChars]
    by_cases hneg : i < 0
    · rw [if_pos hneg]
      obtain ⟨c, ds, hcd, hcdig, hparse⟩ := natDigits_parse i.natAbs hr
      rw [hcd]
      simp only [List.cons_append]
      rw [parseVal, skipWs_cons (by decide)]
      simp only [if_neg (show ¬('-' : Char) = 'n' by decide),
        if_neg (show ¬('-' : Char) = 't' by decide),
        if_neg (show ¬('-' : Char) = 'f' by decide),
        if_neg (show ¬('-' : Char) = '"' by decide),
        if_neg (show ¬('-' : Char) = '[' by decide),
        if_neg (show ¬('-' : Char) = '{' by decide),
        if_pos (show ('-' : Char) = '-' from rfl)]
      simp only [if_pos hcdig, hparse]
      have : -(i.natAbs : Int) = i := by omega
      rw [this]
      simp
    · rw [if_neg hneg]
      obtain ⟨c, ds, hcd, hcdig, hparse⟩ := natDigits_parse i.natAbs hr
      rw [hcd]
      simp only [List.cons_append]
      have hfacts := digit_head_facts hcdig
      rw [parseVal, skipWs_cons hfacts.1]
      simp only [if_neg hfacts.2.1, if_neg hfacts.2.2.1, if_neg hfacts.2.2.2.1,
        if_neg hfacts.2.2.2.2.1, if_neg hfacts.2.2.2.2.2.1, if_neg hfacts.2.2.2.2.2.2.1,
        if_neg hfacts.2.2.2.2.2.2.2.1, if_pos hcdig]
      rw [hparse]
      have : (i.natAbs : Int) = i := by omega
      rw [this]
  | fuel + 1, .str s, rest, _, _, _ => by
    rw [printVal]
    simp only [List.cons_append, List.append_assoc, List.singleton_append]
    rw [parseVal, skipWs_cons (by decide)]
    simp only [if_neg (show ¬('"' : Char) = 'n' by decide),
      if_neg (show ¬('"' : Char) = 't' by decide),
      if_neg (show ¬('"' : Char) = 'f' by decide),
      if_pos (show ('"' : Char) = '"' from rfl)]
    rw [parseStringBody_escapeList]
    simp
  | fuel + 1, .arr [], rest, _, _, _ => by
    simp [printVal, parseVal, skipWs, isWs]
  | fuel + 1, .arr (x :: xs), rest, hf, hr, hw => by
    rw [printVal]
    simp only [List.cons_append, List.append_assoc, List.singleton_append, List.nil_append]
    rw [parseVal, skipWs_cons (by decide)]
    simp only [if_neg (show ¬('[' : Char) = 'n' by decide),
      if_neg (show ¬('[' : Char) = 't' by decide),
      if_neg (show ¬('[' : Char) = 'f' by decide),
      if_neg (show ¬('[' : Char) = '"' by decide),
      if_pos (show ('[' : Char) = '[' from rfl), if_true]
    obtain ⟨c2, r2, hpx, hws, hrb, _, _⟩ := printVal_head x
    rw [hpx]
    simp only [List.cons_append]
    rw [skipWs_cons hws]
    simp only [if_neg hrb]
    rw [show c2 :: (r2 ++ (printElems xs ++ ']' :: rest)) =
      printVal x ++ (printElems xs ++ ']' :: rest) by rw [hpx]; simp]
    rw [fsizeV] at hf
    rw [Json.wf, Json.wfList] at hw
    simp only [parseVal_printVal fuel x (printElems xs ++ ']' :: rest)
      (by rw [fsizeElems] at hf; omega) (noDigit_printElems xs rest)
      (by simpa using (band_true hw).1)]
    simp only [parseArrTail_printElems fuel xs rest (by rw [fsizeElems] at hf; omega) hr
      (by simpa using (band_true hw).2)]
  | fuel + 1, .obj [], rest, _, _, _ => by
    simp [printVal, parseVal, skipWs, isWs]
  | fuel + 1, .obj (kv :: kvs), rest, hf, hr, hw => by
    obtain ⟨k, v⟩ := kv
    rw [printVal]
    simp only [List.cons_append, List.append_assoc, List.singleton_append, List.nil_append]
    rw [parseVal, skipWs_cons (by decide)]
    simp only [if_neg (show ¬('{' : Char) = 'n' by decide),
      if_neg (show ¬('{' : Char) = 't' by decide),
      if_neg (show ¬('{' : Char) = 'f' by decide),
      if_neg (show ¬('{' : Char) = '"' by decide),
      if_neg (show ¬('{' : Char) = '[' by decide),
      if_pos (show ('{' : Char) = '{' from rfl), if_true]
    rw [printMember]
    simp only [List.cons_append, List.append_assoc, List.nil_append]
    rw [skipWs_cons (by decide)]
    simp only [if_neg (show ¬('"' : Char) = '}' by decide)]
    rw [show ('"' : Char) :: (escapeList k.data ++ ('"' :: ':' :: ' ' :: (printVal v ++
        (printMembers kvs ++ '}' :: rest)))) =
      printMember (k, v) ++ (printMembers kvs ++ '}' :: rest) by rw [printMember]; simp]
    rw [fsizeV, fsizeMembers] at hf
    have hw2 : Json.nodupKeys (((k, v) :: kvs).map Prod.fst) = true ∧
        Json.wfKVs ((k, v) :: kvs) = true := by
      rw [Json.wf] at hw
      exact band_true hw
    have hwv : Json.wf v = true ∧ Json.wfKVs kvs = true := by
      have := hw2.2
      rw [Json.wfKVs] at this
      exact band_true this
    simp only [parseMember_printMember fuel (k, v) (printMembers kvs ++ '}' :: rest)
      (by omega) (noDigit_printMembers kvs rest) hwv.1]
    simp only [parseObjTail_printMembers fuel kvs rest (by omega) hr hwv.2]
    rw [dedupKeys_of_nodup (by simpa [Json.nodupKeys] using hw2.1)]
  termination_by fuel _ _ => fuel

theorem parseArrTail_printElems : ∀ (fuel : Nat) (xs : List Json) (rest : List Char),
    fsizeElems xs + 1 ≤ fuel → noDigit rest = true → Json.wfList xs = true →
    parseArrTail fuel (printElems xs ++ ']' :: rest) = some (xs, rest)
  | 0, xs, _, hf, _, _ => absurd hf (by omega)
  | fuel + 1, [], rest, _, _, _ => by
    simp [printElems, parseArrTail, skipWs, isWs]
  | fuel + 1, x :: xs, rest, hf, hr, hw => by
    rw [printElems]
    simp only [List.cons_append, List.append_assoc, List.nil_append]
    rw [parseArrTail, skipWs_cons (by decide)]
    simp only [if_neg (show ¬(',' : Char) = ']' by decide),
      if_pos (show (',' : Char) = ',' from rfl), if_true]
    rw [fsizeElems] at hf
    rw [Json.wfList] at hw
    rw [parseVal_ws]
    simp only [parseVal_printVal fuel x (printElems xs ++ ']' :: rest) (by omega)
      (noDigit_printElems xs rest) (by simpa using (band_true hw).1)]
    simp only [parseArrTail_printElems fuel xs rest (by omega) hr
      (by simpa using (band_true hw).2)]
  termination_by fuel _ _ => fuel

theorem parseMember_printMember : ∀ (fuel : Nat) (kv : String × Json) (rest : List Char),
    fsizeV kv.2 + 1 ≤ fuel → noDigit rest = true → Json.wf kv.2 = true →
    parseMember fuel (printMember kv ++ rest) = some (kv, rest)
  | 0, kv, _, hf, _, _ => absurd hf (by omega)
  | fuel + 1, (k, v), rest, hf, hr, hw => by
    rw [printMember]
    simp only [List.cons_append, List.append_assoc, List.nil_append]
    rw [parseMember, skipWs_cons (by decide)]
    simp only [if_pos (show ('"' : Char) = '"' from rfl), if_true]
    rw [show escapeList k.data ++ ('"' :: ':' :: ' ' :: (printVal v ++ rest)) =
      escapeList k.data ++ '"' :: (':' :: ' ' :: (printVal v ++ rest)) by simp]
    rw [parseStringBody_escapeList]
    simp only []
    rw [skipWs_cons (by decide)]
    simp only [if_pos (show (':' : Char) = ':' from rfl), if_true]
    rw [parseVal_ws]
    simp only [parseVal_printVal fuel v rest (by simp at hf; omega) hr hw]
  termination_by fuel _ _ => fuel

theorem parseObjTail_printMembers : ∀ (fuel : Nat) (kvs : List (String × Json))
    (rest : List Char),
    fsizeMembers kvs + 1 ≤ fuel → noDigit rest = true → Json.wfKVs kvs = true →
    parseObjTail fuel (printMembers kvs ++ '}' :: rest) = some (kvs, rest)
  | 0, kvs, _, hf, _, _ => absurd hf (by omega)
  | fuel + 1, [], rest, _, _, _ => by
    simp [printMembers, parseObjTail, skipWs, isWs]
  | fuel + 1, kv :: kvs, rest, hf, hr, hw => by
    rw [printMembers]
    simp only [List.cons_append, List.append_assoc, List.nil_append]
    rw [parseObjTail, skipWs_cons (by decide)]
    simp only [if_neg (show ¬(',' : Char) = '}' by decide),
      if_pos (show (',' : Char) = ',' from rfl), if_true]
    rw [fsizeMembers] at hf
    rw [Json.wfKVs] at hw
    rw [parseMember_ws]
    simp only [parseMember_printMember fuel kv (printMembers kvs ++ '}' :: rest) (by omega)
      (noDigit_printMembers kvs rest) (by simpa using (band_true hw).1)]
    simp only [parseObjTail_printMembers fuel kvs rest (by omega) hr
      (by simpa using (band_true hw).2)]
  termination_by fuel _ _ => fuel

end

mutual

theorem fsizeV_le : ∀ v : Json, fsizeV v ≤ 2 * (printVal v).length
  | .null => by simp [fsizeV, printVal]
  | .bool true => by simp [fsizeV, printVal]
  | .bool false => by simp [fsizeV, printVal]
  | .num i => by
    have : natDigits i.natAbs ≠ [] := natDigits_ne_nil _
    have hp : 1 ≤ (natDigits i.natAbs).length := by
      cases hcd : natDigits i.natAbs with
      | nil => exact absurd hcd this
      | cons c ds => simp
    rw [fsizeV, printVal, intChars]
    by_cases h : i < 0
    · rw [if_pos h]
      simp
      omega
    · rw [if_neg h]
      omega
  | .str s => by simp [fsizeV, printVal]; omega
  | .arr [] => by simp [fsizeV, fsizeElems, printVal]
  | .arr (x :: xs) => by
    have h1 := fsizeV_le x
    have h2 := fsizeElems_le xs
    rw [fsizeV, fsizeElems, printVal]
    simp only [List.length_cons, List.length_append]
    omega
  | .obj [] => by simp [fsizeV, fsizeMembers, printVal]
  | .obj (kv :: kvs) => by
    have h1 := fsizeV_le kv.2
    have h2 := fsizeMembers_le kvs
    have h3 : (printVal kv.2).length ≤ (printMember kv).length := by
      obtain ⟨k, v⟩ := kv
      rw [printMember]
      simp
      omega
    rw [fsizeV, fsizeMembers, printVal]
    simp only [List.length_cons, List.length_append]
    omega

theorem fsizeElems_le : ∀ xs : List Json, fsizeElems xs ≤ 2 * (printElems xs).length
  | [] => by simp [fsizeElems, printElems]
  | x :: xs => by
    have h1 := fsizeV_le x
    have h2 := fsizeElems_le xs
    rw [fsizeElems, printElems]
    simp only [List.length_cons, List.length_append]
    omega

theorem fsizeMembers_le : ∀ kvs : List (String × Json),
    fsizeMembers kvs ≤ 2 * (printMembers kvs).length
  | [] => by simp [fsizeMembers, printMembers]
  | kv :: kvs => by
    have h1 := fsizeV_le kv.2
    have h2 := fsizeMembers_le kvs
    have h3 : (printVal kv.2).length ≤ (printMember kv).length := by
      obtain ⟨k, v⟩ := kv
      rw [printMember]
      simp
      omega
    rw [fsizeMembers, printMembers]
    simp only [List.length_cons, List.length_append]
    omega

end

theorem loads_dumps (v : Json) (h : Json.wf v = true) : Json.loads (Json.dumps v) = some v := by
  rw [Json.loads, Json.dumps]
  have hb : fsizeV v ≤ 2 * (String.mk (printVal v)).data.length + 2 := by
    have := fsizeV_le v
    simp only [String.mk]
    omega
  have hp := parseVal_printVal (2 * (String.mk (printVal v)).data.length + 2) v [] hb rfl h
  rw [List.append_nil] at hp
  have hd : (String.mk (printVal v)).data = printVal v := rfl
  rw [hd] at hp ⊢
  rw [hp]
  simp [skipWs]

theorem deltaKindOfStr_str (k : DeltaKind) : deltaKindOfStr (deltaKindStr k) = some k := by
  cases k <;> rfl

theorem provenanceKindOfStr_str (p : ProvenanceKind) :
    provenanceKindOfStr (provenanceKindStr p) = some p := by
  cases p <;> rfl

theorem optStrOfJson_optStrJson (o : Option String) :
    optStrOfJson (some (optStrJson o)) = some o := by
  cases o <;> rfl

theorem provToJson_wf (p : Provenance) : Json.wf (provToJson p) = true := by
  rw [provToJson, Json.wf, Bool.and_eq_true]
  constructor
  · rw [Json.nodupKeys]
    simp
  · cases hs : p.source <;> cases hm : p.model <;> cases ht : p.tool <;>
      cases he : p.episode_id <;> cases hk : p.knot_id <;>
      simp [Json.wfKVs, Json.wf, optStrJson]

theorem provOfJson_provToJson (p : Provenance) : provOfJson (provToJson p) = some p := by
  simp [provToJson, provOfJson, lookupKV, optStrOfJson_optStrJson, provenanceKindOfStr_str]

theorem beadRefOfJson_beadRefToJson (r : BeadRef) :
    beadRefOfJson (beadRefToJson r) = some r := by
  simp [beadRefToJson, beadRefOfJson, lookupKV, optStrOfJson_optStrJson]

theorem beadRefToJson_wf (r : BeadRef) : Json.wf (beadRefToJson r) = true := by
  rw [beadRefToJson, Json.wf, Bool.and_eq_true]
  constructor
  · rw [Json.nodupKeys]
    simp
  · cases hv : r.bead_version_id <;> simp [Json.wfKVs, Json.wf, optStrJson]

theorem strList_wf (l : List String) : Json.wf (.arr (l.map .str)) = true := by
  rw [Json.wf]
  induction l with
  | nil => rfl
  | cons x xs ih =>
    rw [List.map_cons, Json.wfList, ih]
    rfl

theorem asStrList_map_str (l : List String) : asStrList (.arr (l.map .str)) = some l := by
  rw [asStrList]
  induction l with
  | nil => rfl
  | cons x xs ih =>
    simp only [List.map_cons, List.mapM_cons] at ih ⊢
    cases hm : (xs.map Json.str).mapM
        (fun x => match x with | .str s => some s | _ => none) with
    | none => rw [hm] at ih; simp at ih
    | some ys =>
      rw [hm] at ih
      simp at ih
      simp [hm, ih]

theorem wfList_arr_wf {xs : List Json} (h : Json.wfList xs = true) :
    Json.wf (.arr xs) = true := by
  rw [Json.wf]
  exact h

theorem deltaOfNode_deltaNodeOf {d : GenericDelta} (h : wfDelta d = true) (seq : Nat) :
    deltaOfNode (deltaNodeOf d seq) = some (stripRefs d) := by
  rw [deltaNodeOf, deltaOfNode]
  simp only
  rw [deltaKindOfStr_str]
  rw [loads_dumps _ (provToJson_wf d.provenance)]
  have hpw : Json.wf (.obj d.payload) = true := h
  have hpne : Json.dumps (.obj d.payload) ≠ "" := by
    rw [Json.dumps]
    cases hp : d.payload with
    | nil => rw [printVal]; intro hc; simpa using congrArg String.data hc
    | cons kv kvs => rw [printVal]; intro hc; simpa using congrArg String.data hc
  have htne : Json.dumps (.arr (d.tags.map .str)) ≠ "" := by
    rw [Json.dumps]
    cases ht : d.tags with
    | nil => rw [List.map_nil, printVal]; intro hc; simpa using congrArg String.data hc
    | cons t ts => rw [List.map_cons, printVal]; intro hc; simpa using congrArg String.data hc
  rw [pyOrStr, if_neg hpne, pyOrStr, if_neg htne]
  rw [loads_dumps _ hpw, loads_dumps _ (strList_wf d.tags)]
  simp only [Option.some_bind, provOfJson_provToJson, asStrList_map_str, asObj,
    Option.bind_some, Option.some_bind, Option.pure_def]
  rfl

theorem dumps_ne_nil_arr (xs : List Json) : Json.dumps (.arr xs) ≠ "" := by
  rw [Json.dumps]
  cases xs with
  | nil => rw [printVal]; intro hc; simpa using congrArg String.data hc
  | cons x r => rw [printVal]; intro hc; simpa using congrArg String.data hc

theorem asList_arr (xs : List Json) : asList (.arr xs) = some xs := rfl

theorem knotOfNode_knotNodeOf {a : KnotArgs} (hw : wfKnotArgs a = true)
    (braid kid : String) (seq : Nat) :
    knotOfNode (knotNodeOf (knotOfArgs braid kid a) a seq) =
      some (knotOfArgs braid kid a) := by
  have hw2 := band_true hw
  rw [knotNodeOf, knotOfNode]
  simp only [knotOfArgs]
  cases hr : a.thought_summary_bead_ref with
  | none =>
    simp only [Option.map_none']
    rw [pyOrStr, if_neg (dumps_ne_nil_arr _), pyOrStr, if_neg (dumps_ne_nil_arr _),
      pyOrStr, if_neg (dumps_ne_nil_arr _)]
    rw [loads_dumps _ (strList_wf (a.arrivals_during.getD []))]
    rw [loads_dumps _ (wfList_arr_wf hw2.1), loads_dumps _ (wfList_arr_wf hw2.2)]
    simp only [Option.some_bind, asStrList_map_str, asList_arr, Option.bind_some,
      Option.pure_def]
    rfl
  | some ref =>
    simp only [Option.map_some']
    have hne : Json.dumps (beadRefToJson ref) ≠ "" := by
      rw [Json.dumps, beadRefToJson, printVal]
      intro hc
      simpa using congrArg String.data hc
    rw [if_neg hne]
    rw [loads_dumps _ (beadRefToJson_wf ref)]
    rw [pyOrStr, if_neg (dumps_ne_nil_arr _), pyOrStr, if_neg (dumps_ne_nil_arr _),
      pyOrStr, if_neg (dumps_ne_nil_arr _)]
    rw [loads_dumps _ (strList_wf (a.arrivals_during.getD []))]
    rw [loads_dumps _ (wfList_arr_wf hw2.1), loads_dumps _ (wfList_arr_wf hw2.2)]
    simp only [Option.some_bind, asStrList_map_str, asList_arr, Option.bind_some,
      Option.pure_def, beadRefOfJson_beadRefToJson, Option.map_some]
    rfl

theorem sorted_desc_unique {α : Type} (key : α → Nat) :
    ∀ (l1 l2 : List α), l1.Perm l2 →
      l1.Pairwise (fun a b => key b < key a) →
      l2.Pairwise (fun a b => key b < key a) → l1 = l2 := by
  intro l1
  induction l1 with
  | nil =>
    intro l2 hp _ _
    exact (hp.nil_eq).symm ▸ rfl
  | cons a t1 ih =>
    intro l2 hp h1 h2
    cases l2 with
    | nil => exact absurd hp.symm (by simp)
    | cons b t2 =>
      have hab : a = b := by
        by_contra hne
        have ha2 : a ∈ b :: t2 := hp.mem_iff.mp (by simp)
        have hat2 : a ∈ t2 := by
          rcases ha2 with _ | h
          · exact absurd rfl hne
          · assumption
        have hb1 : b ∈ a :: t1 := hp.mem_iff.mpr (by simp)
        have hbt1 : b ∈ t1 := by
          rcases hb1 with _ | h
          · exact absurd rfl (fun hc => hne hc.symm)
          · assumption
        have hka : key a < key b := (List.pairwise_cons.mp h2).1 a hat2
        have hkb : key b < key a := (List.pairwise_cons.mp h1).1 b hbt1
        omega
      subst hab
      have ht : t1.Perm t2 := hp.cons_inv
      rw [ih t2 ht (List.pairwise_cons.mp h1).2 (List.pairwise_cons.mp h2).2]

theorem mergeSort_desc_of_ascending {α : Type} (key : α → Nat) (l : List α)
    (h : l.Pairwise (fun a b => key a < key b)) :
    l.mergeSort (fun a b => decide (key b ≤ key a)) = l.reverse := by
  have hperm : (l.mergeSort (fun a b => decide (key b ≤ key a))).Perm l :=
    List.mergeSort_perm l _
  have hsorted : (l.mergeSort (fun a b => decide (key b ≤ key a))).Pairwise
      (fun a b => decide (key b ≤ key a)) :=
    @List.sorted_mergeSort _ (fun a b => decide (key b ≤ key a))
      (fun a b c h1 h2 => by
        simp only [decide_eq_true_iff] at h1 h2 ⊢
        omega)
      (fun a b => by
        simp only [Bool.or_eq_true, decide_eq_true_iff]
        omega)
      l
  have hnodup : ((l.mergeSort (fun a b => decide (key b ≤ key a))).map key).Nodup := by
    have hl : (l.map key).Nodup := by
      show (l.map key).Pairwise (· ≠ ·)
      exact List.pairwise_map.mpr (h.imp fun hab => Nat.ne_of_lt hab)
    exact ((hperm.map key).nodup_iff).mpr hl
  have hstrict : (l.mergeSort (fun a b => decide (key b ≤ key a))).Pairwise
      (fun a b => key b < key a) := by
    have hne : (l.mergeSort (fun a b => decide (key b ≤ key a))).Pairwise
        (fun a b => key a ≠ key b) := List.pairwise_map.mp hnodup
    exact (hsorted.and hne).imp (fun hab => by
      have h1 := hab.1
      have h2 := hab.2
      simp only [decide_eq_true_iff] at h1
      omega)
  have hrev : (l.reverse).Pairwise (fun a b => key b < key a) :=
    List.pairwise_reverse.mpr h
  exact sorted_desc_unique key _ _ (hperm.trans (l.reverse_perm).symm) hstrict hrev

theorem drop_zipWith {α β γ : Type} (f : α → β → γ) :
    ∀ (k : Nat) (l1 : List α) (l2 : List β),
      (List.zipWith f l1 l2).drop k = List.zipWith f (l1.drop k) (l2.drop k) := by
  intro k
  induction k with
  | zero => intro l1 l2; simp
  | succ n ih =>
    intro l1 l2
    cases l1 with
    | nil => simp
    | cons a t1 =>
      cases l2 with
      | nil => simp
      | cons b t2 =>
        rw [List.zipWith_cons_cons, List.drop_succ_cons, List.drop_succ_cons,
          List.drop_succ_cons, ih]

theorem mem_zipWith_seq {α β : Type} (f : β → Nat → α) (key : α → Nat)
    (hkey : ∀ b n, key (f b n) = n) :
    ∀ (ds : List β) (n0 len : Nat), ∀ x ∈ List.zipWith f ds (List.range' n0 len),
      n0 ≤ key x := by
  intro ds
  induction ds with
  | nil => intro n0 len x hx; simp at hx
  | cons d rest ih =>
    intro n0 len x hx
    cases len with
    | zero => simp [List.range'] at hx
    | succ m =>
      rw [List.range'] at hx
      rw [List.zipWith_cons_cons] at hx
      rcases List.mem_cons.mp hx with h | h
      · subst h
        rw [hkey]
      · have := ih (n0 + 1) m x h
        omega

theorem zipWith_seq_pairwise {α β : Type} (f : β → Nat → α) (key : α → Nat)
    (hkey : ∀ b n, key (f b n) = n) :
    ∀ (ds : List β) (n0 : Nat),
      (List.zipWith f ds (List.range' n0 ds.length)).Pairwise
        (fun a b => key a < key b) := by
  intro ds
  induction ds with
  | nil => intro n0; simp
  | cons d rest ih =>
    intro n0
    rw [List.length_cons, List.range', List.zipWith_cons_cons]
    rw [List.pairwise_cons]
    constructor
    · intro x hx
      have := mem_zipWith_seq f key hkey rest (n0 + 1) rest.length x hx
      rw [hkey]
      omega
    · exact ih (n0 + 1)

theorem sort_take_rev {α : Type} (key : α → Nat) (l : List α)
    (h : l.Pairwise (fun a b => key a < key b)) (k : Nat) :
    ((l.mergeSort (fun a b => decide (key b ≤ key a))).take k).reverse =
      l.drop (l.length - k) := by
  rw [mergeSort_desc_of_ascending key l h, List.take_reverse, List.reverse_reverse]

theorem append_many_state (ds : List GenericDelta) :
    ∀ s : InMemoryEpisodicStore,
      s.append_many ds = { s with deltas := s.deltas ++ ds } := by
  induction ds with
  | nil => intro s; simp [InMemoryEpisodicStore.append_many]
  | cons d rest ih =>
    intro s
    rw [InMemoryEpisodicStore.append_many, List.foldl_cons]
    have : InMemoryEpisodicStore.append_many (s.append_delta d) rest =
        List.foldl InMemoryEpisodicStore.append_delta (s.append_delta d) rest := rfl
    rw [← this, ih]
    simp [InMemoryEpisodicStore.append_delta]

theorem n4_append_many_state (ds : List GenericDelta) :
    ∀ s : Neo4jEpisodicStore,
      s.append_many ds =
        { s with
          next_delta_seq := s.next_delta_seq + ds.length,
          deltaNodes := s.deltaNodes ++
            List.zipWith deltaNodeOf ds
              (List.range' (s.next_delta_seq + 1) ds.length) } := by
  induction ds with
  | nil => intro s; simp [Neo4jEpisodicStore.append_many]
  | cons d rest ih =>
    intro s
    rw [Neo4jEpisodicStore.append_many, List.foldl_cons]
    have h0 : Neo4jEpisodicStore.append_many (s.append_delta d) rest =
        List.foldl Neo4jEpisodicStore.append_delta (s.append_delta d) rest := rfl
    rw [← h0, ih]
    rw [Neo4jEpisodicStore.append_delta]
    simp only [List.length_cons, List.range', List.zipWith_cons_cons]
    congr 1
    · omega
    · rw [List.append_assoc]
      rfl

theorem mapM_deltaOfNode : ∀ (ds : List GenericDelta) (seqs : List Nat),
    ds.length ≤ seqs.length → (∀ d ∈ ds, wfDelta d = true) →
    (List.zipWith deltaNodeOf ds seqs).mapM deltaOfNode =
      some (ds.map stripRefs) := by
  intro ds
  induction ds with
  | nil => intro seqs _ _; rfl
  | cons d rest ih =>
    intro seqs hlen hwf
    cases seqs with
    | nil => simp at hlen
    | cons q qs =>
      rw [List.zipWith_cons_cons, List.mapM_cons]
      rw [deltaOfNode_deltaNodeOf (hwf d (by simp)) q]
      rw [ih qs (by simpa using hlen) (fun x hx => hwf x (by simp [hx]))]
      simp

theorem of_mem_zipWith {α β γ : Type} (f : α → β → γ) :
    ∀ (l1 : List α) (l2 : List β) (x : γ), x ∈ List.zipWith f l1 l2 →
      ∃ a, a ∈ l1 ∧ ∃ b, x = f a b := by
  intro l1
  induction l1 with
  | nil => intro l2 x hx; simp at hx
  | cons a t1 ih =>
    intro l2 x hx
    cases l2 with
    | nil => simp at hx
    | cons b t2 =>
      rw [List.zipWith_cons_cons] at hx
      rcases List.mem_cons.mp hx with h | h
      · exact ⟨a, by simp, b, h⟩
      · obtain ⟨a2, ha2, b2, hb2⟩ := ih t2 x h
        exact ⟨a2, by simp [ha2], b2, hb2⟩

theorem n4_get_recent_deltas_spec (b : String) (ds : List GenericDelta) (limit : Int)
    (hb : ∀ d ∈ ds, d.braid_id = b) (hw : ∀ d ∈ ds, wfDelta d = true)
    (hl : 0 < limit) :
    ((Neo4jEpisodicStore.mk0 b).append_many ds).get_recent_deltas limit =
      some ((ds.drop (ds.length - limit.toNat)).map stripRefs) := by
  rw [n4_append_many_state]
  rw [Neo4jEpisodicStore.get_recent_deltas, if_neg (by omega)]
  simp only [Neo4jEpisodicStore.mk0, List.nil_append]
  have hfil : (List.zipWith deltaNodeOf ds (List.range' (0 + 1) ds.length)).filter
      (fun d => decide (d.braid_id = b)) =
      List.zipWith deltaNodeOf ds (List.range' (0 + 1) ds.length) := by
    rw [List.filter_eq_self]
    intro x hx
    obtain ⟨d, hd, q, hq⟩ := of_mem_zipWith deltaNodeOf ds _ x hx
    subst hq
    simp [deltaNodeOf, hb d hd]
  rw [hfil]
  have hpair := zipWith_seq_pairwise deltaNodeOf DeltaNode.seq (fun d n => rfl) ds (0 + 1)
  have hrev := sort_take_rev DeltaNode.seq
    (List.zipWith deltaNodeOf ds (List.range' (0 + 1) ds.length)) hpair limit.toNat
  rw [hrev]
  have hlen : (List.zipWith deltaNodeOf ds (List.range' (0 + 1) ds.length)).length =
      ds.length := by
    simp
  rw [hlen, drop_zipWith]
  rw [mapM_deltaOfNode (ds.drop (ds.length - limit.toNat)) _
    (by simp) (fun x hx => hw x (List.drop_subset _ _ hx))]

theorem commit_many_spec : ∀ (calls : List KnotArgs) (s : InMemoryEpisodicStore),
    (s.commit_many calls).1.knots = s.knots ++ (s.commit_many calls).2 ∧
    (s.commit_many calls).2.length = calls.length := by
  intro calls
  induction calls with
  | nil => intro s; simp [InMemoryEpisodicStore.commit_many]
  | cons a rest ih =>
    intro s
    rw [InMemoryEpisodicStore.commit_many]
    have h1 := ih (s.commit_knot a).1
    simp only
    constructor
    · rw [h1.1]
      have : (s.commit_knot a).1.knots = s.knots ++ [(s.commit_knot a).2] := by
        rw [InMemoryEpisodicStore.commit_knot]
      rw [this]
      simp
    · simp [h1.2]

theorem n4_commit_many_spec : ∀ (calls : List KnotArgs) (s : Neo4jEpisodicStore),
    (s.commit_many calls).1.knotNodes = s.knotNodes ++
        List.zipWith (fun (p : Knot × KnotArgs) seq => knotNodeOf p.1 p.2 seq)
          ((s.commit_many calls).2.zip calls)
          (List.range' (s.next_knot_seq + 1) calls.length) ∧
      (s.commit_many calls).2.length = calls.length ∧
      (∀ p ∈ (s.commit_many calls).2.zip calls,
        ∃ kid, p.1 = knotOfArgs s.braid_id kid p.2) ∧
      (s.commit_many calls).1.braid_id = s.braid_id := by
  intro calls
  induction calls with
  | nil => intro s; simp [Neo4jEpisodicStore.commit_many]
  | cons a rest ih =>
    intro s
    rw [Neo4jEpisodicStore.commit_many]
    simp only
    have hstep : (s.commit_knot a).1.knotNodes =
        s.knotNodes ++ [knotNodeOf (s.commit_knot a).2 a (s.next_knot_seq + 1)] ∧
        (s.commit_knot a).1.next_knot_seq = s.next_knot_seq + 1 ∧
        (s.commit_knot a).1.braid_id = s.braid_id ∧
        (s.commit_knot a).2 = knotOfArgs s.braid_id (pyOrId a.knot_id (genId s.gen)) a := by
      rw [Neo4jEpisodicStore.commit_knot]
      exact ⟨rfl, rfl, rfl, rfl⟩
    have h1 := ih (s.commit_knot a).1
    refine ⟨?_, ?_, ?_, ?_⟩
    · rw [h1.1, hstep.1, hstep.2.1]
      rw [List.length_cons, List.range', List.zip_cons_cons, List.zipWith_cons_cons]
      rw [List.append_assoc]
      rfl
    · simp [h1.2.1]
    · intro p hp
      rw [List.zip_cons_cons] at hp
      rcases List.mem_cons.mp hp with h | h
      · subst h
        exact ⟨pyOrId a.knot_id (genId s.gen), by rw [hstep.2.2.2]⟩
      · obtain ⟨kid, hkid⟩ := h1.2.2.1 p h
        exact ⟨kid, by rw [hkid, hstep.2.2.1]⟩
    · rw [h1.2.2.2, hstep.2.2.1]

theorem mapM_knotOfNode : ∀ (pairs : List (Knot × KnotArgs)) (seqs : List Nat),
    pairs.length ≤ seqs.length →
    (∀ p ∈ pairs, (∃ braid kid, p.1 = knotOfArgs braid kid p.2) ∧
      wfKnotArgs p.2 = true) →
    (List.zipWith (fun (p : Knot × KnotArgs) seq => knotNodeOf p.1 p.2 seq) pairs
      seqs).mapM knotOfNode = some (pairs.map Prod.fst) := by
  intro pairs
  induction pairs with
  | nil => intro seqs _ _; rfl
  | cons p rest ih =>
    intro seqs hlen hp
    cases seqs with
    | nil => simp at hlen
    | cons q qs =>
      rw [List.zipWith_cons_cons, List.mapM_cons]
      obtain ⟨⟨braid, kid, hk⟩, hw⟩ := hp p (by simp)
      rw [show knotNodeOf p.1 p.2 q = knotNodeOf (knotOfArgs braid kid p.2) p.2 q by
        rw [hk]]
      rw [knotOfNode_knotNodeOf hw braid kid q]
      rw [ih qs (by simpa using hlen) (fun x hx => hp x (by simp [hx]))]
      rw [← hk]
      simp

theorem n4_get_recent_knots_spec (b : String) (calls : List KnotArgs) (limit : Int)
    (hw : ∀ a ∈ calls, wfKnotArgs a = true) (hl : 0 < limit) :
    (((Neo4jEpisodicStore.mk0 b).commit_many calls).1).get_recent_knots limit =
      some (((Neo4jEpisodicStore.mk0 b).commit_many calls).2.drop
        (calls.length - limit.toNat)) := by
  have hs := n4_commit_many_spec calls (Neo4jEpisodicStore.mk0 b)
  rw [Neo4jEpisodicStore.get_recent_knots, if_neg (by omega)]
  rw [hs.1, hs.2.2.2]
  rw [show (Neo4jEpisodicStore.mk0 b).knotNodes = ([] : List KnotNode) from rfl,
    show (Neo4jEpisodicStore.mk0 b).next_knot_seq = 0 from rfl,
    show (Neo4jEpisodicStore.mk0 b).braid_id = b from rfl, List.nil_append]
  have hplen : (((Neo4jEpisodicStore.mk0 b).commit_many calls).2.zip calls).length =
      calls.length := by
    rw [List.length_zip, hs.2.1]
    omega
  have hfil : (List.zipWith (fun (p : Knot × KnotArgs) seq => knotNodeOf p.1 p.2 seq)
      (((Neo4jEpisodicStore.mk0 b).commit_many calls).2.zip calls)
      (List.range' (0 + 1) calls.length)).filter
        (fun k => decide (k.braid_id = b)) =
      List.zipWith (fun (p : Knot × KnotArgs) seq => knotNodeOf p.1 p.2 seq)
        (((Neo4jEpisodicStore.mk0 b).commit_many calls).2.zip calls)
        (List.range' (0 + 1) calls.length) := by
    rw [List.filter_eq_self]
    intro x hx
    obtain ⟨p, hp, q, hq⟩ := of_mem_zipWith _ _ _ x hx
    obtain ⟨kid, hkid⟩ := hs.2.2.1 p hp
    subst hq
    simp [knotNodeOf, hkid, knotOfArgs, Neo4jEpisodicStore.mk0]
  rw [hfil]
  rw [show List.range' (0 + 1) calls.length =
    List.range' (0 + 1) (((Neo4jEpisodicStore.mk0 b).commit_many calls).2.zip calls).length
    by rw [hplen]]
  have hpair := zipWith_seq_pairwise
    (fun (p : Knot × KnotArgs) seq => knotNodeOf p.1 p.2 seq) KnotNode.seq
    (fun p n => rfl) (((Neo4jEpisodicStore.mk0 b).commit_many calls).2.zip calls) (0 + 1)
  simp only []
  rw [sort_take_rev KnotNode.seq _ hpair limit.toNat]
  have hzlen : (List.zipWith (fun (p : Knot × KnotArgs) seq => knotNodeOf p.1 p.2 seq)
      (((Neo4jEpisodicStore.mk0 b).commit_many calls).2.zip calls)
      (List.range' (0 + 1)
        (((Neo4jEpisodicStore.mk0 b).commit_many calls).2.zip calls).length)).length =
      calls.length := by
    simp [hplen]
  rw [hzlen, drop_zipWith]
  rw [mapM_knotOfNode _ _ (by simp [hplen]) ?hyp]
  case hyp =>
    intro p hp
    have hp2 : p ∈ ((Neo4jEpisodicStore.mk0 b).commit_many calls).2.zip calls :=
      List.drop_subset _ _ hp
    obtain ⟨kid, hkid⟩ := hs.2.2.1 p hp2
    refine ⟨⟨b, kid, hkid⟩, hw p.2 (List.of_mem_zip hp2).2⟩
  rw [List.map_drop, List.map_fst_zip]
  rw [hs.2.1]

theorem natDigits_inj {m n : Nat} (h : natDigits m = natDigits n) : m = n := by
  have hm := foldl_natDigits m 0
  have hn := foldl_natDigits n 0
  rw [h] at hm
  rw [hm] at hn
  omega

theorem genId_inj {m n : Nat} (h : genId m = genId n) : m = n := by
  rw [genId, genId] at h
  have h2 := congrArg String.data h
  simp only at h2
  exact natDigits_inj (by simpa using h2)

theorem lookupKV_eq_none {α : Type} {l : List (String × α)} {k : String}
    (h : ¬ k ∈ l.map Prod.fst) : lookupKV l k = none := by
  induction l with
  | nil => rfl
  | cons p t ih =>
    rw [lookupKV, if_neg, ih]
    · intro hc
      exact h (by simp [hc])
    · intro hc
      exact h (by simp [hc])

theorem lookupKV_insertKV_self {α : Type} (l : List (String × α)) (k : String) (v : α) :
    lookupKV (insertKV l k v) k = some v := by
  rw [insertKV]
  by_cases h : k ∈ l.map Prod.fst
  · rw [if_pos (by simp [h])]
    induction l with
    | nil => simp at h
    | cons p t ih =>
      rw [List.map_cons]
      by_cases hp : p.1 = k
      · rw [if_pos hp, lookupKV, if_pos rfl]
      · rw [if_neg hp, lookupKV, if_neg hp]
        apply ih
        have h3 : k ∈ p.1 :: t.map Prod.fst := by rw [List.map_cons] at h; exact h
        rcases List.mem_cons.mp h3 with h2 | h2
        · exact absurd h2.symm hp
        · exact h2
  · rw [if_neg (by simp [h])]
    induction l with
    | nil => rw [List.nil_append, lookupKV, if_pos rfl]
    | cons p t ih =>
      rw [List.cons_append, lookupKV, if_neg, ih]
      · intro hc
        exact h (by simp [hc])
      · intro hc
        exact h (by simp [hc])

theorem insertKV_fresh {α : Type} (l : List (String × α)) (k : String) (v : α)
    (h : ¬ k ∈ l.map Prod.fst) : insertKV l k v = l ++ [(k, v)] := by
  rw [insertKV, if_neg (by simp [h])]

theorem upsert_step_existing (s : InMemoryEpisodicStore) (bead_id : String)
    (bead : Bead) (t : BeadType) (d : List (String × Json))
    (h : lookupKV s.beads bead_id = some bead) :
    s.upsert_bead_version bead_id t d =
      ({ s with
          beads := insertKV s.beads bead_id
            { bead with
              versions := insertKV bead.versions (genId s.gen)
                { id := genId s.gen, bead_id, type := t,
                  created_ts := tsRender s.clock, data := d },
              active_version_id := some (genId s.gen) },
          gen := s.gen + 1, clock := s.clock + 1 },
       { bead_id, bead_version_id := some (genId s.gen), role := "created" }) := by
  rw [InMemoryEpisodicStore.upsert_bead_version, h]

theorem upsert_step_fresh (s : InMemoryEpisodicStore) (bead_id : String)
    (t : BeadType) (d : List (String × Json))
    (h : lookupKV s.beads bead_id = none) :
    s.upsert_bead_version bead_id t d =
      ({ s with
          beads := insertKV s.beads bead_id
            { id := bead_id, type := t,
              versions := [(genId s.gen,
                { id := genId s.gen, bead_id, type := t,
                  created_ts := tsRender s.clock, data := d })],
              active_version_id := some (genId s.gen) },
          gen := s.gen + 1, clock := s.clock + 1 },
       { bead_id, bead_version_id := some (genId s.gen), role := "created" }) := by
  rw [InMemoryEpisodicStore.upsert_bead_version, h]
  rfl

theorem upsert_many_aux : ∀ (calls : List (BeadType × List (String × Json)))
    (s : InMemoryEpisodicStore) (bead_id : String) (bead : Bead) (g0 : Nat),
    lookupKV s.beads bead_id = some bead →
    bead.versions.map Prod.fst = (List.range' g0 (s.gen - g0)).map genId →
    g0 < s.gen →
    bead.active_version_id = some (genId (s.gen - 1)) →
    ∃ bead2 : Bead,
      lookupKV (s.upsert_many bead_id calls).1.beads bead_id = some bead2 ∧
      bead2.versions.map Prod.fst =
        (List.range' g0 (s.gen + calls.length - g0)).map genId ∧
      bead2.active_version_id = some (genId (s.gen + calls.length - 1)) ∧
      bead2.id = bead.id ∧ bead2.type = bead.type ∧
      (s.upsert_many bead_id calls).2 = (List.range' s.gen calls.length).map
        (fun n => { bead_id, bead_version_id := some (genId n), role := "created" }) ∧
      (s.upsert_many bead_id calls).1.gen = s.gen + calls.length := by
  intro calls
  induction calls with
  | nil =>
    intro s bead_id bead g0 hl hv hg ha
    exact ⟨bead, hl, by simpa using hv, by simpa using ha, rfl, rfl, rfl, rfl⟩
  | cons c rest ih =>
    intro s bead_id bead g0 hl hv hg ha
    rw [InMemoryEpisodicStore.upsert_many]
    simp only [upsert_step_existing s bead_id bead c.1 c.2 hl]
    have hfresh : ¬ genId s.gen ∈ bead.versions.map Prod.fst := by
      rw [hv]
      intro hc
      obtain ⟨n, hn, hgen⟩ := by simpa using hc
      have := genId_inj hgen.symm
      omega
    set bead1 : Bead :=
      { bead with
        versions := insertKV bead.versions (genId s.gen)
          { id := genId s.gen, bead_id, type := c.1,
            created_ts := tsRender s.clock, data := c.2 },
        active_version_id := some (genId s.gen) } with hbead1
    have hl1 : lookupKV (insertKV s.beads bead_id bead1) bead_id = some bead1 :=
      lookupKV_insertKV_self s.beads bead_id bead1
    have hv1 : bead1.versions.map Prod.fst =
        (List.range' g0 (s.gen + 1 - g0)).map genId := by
      rw [hbead1]
      simp only
      rw [insertKV_fresh bead.versions (genId s.gen) _ hfresh]
      rw [List.map_append, hv]
      have hr : s.gen + 1 - g0 = (s.gen - g0) + 1 := by omega
      have hx : g0 + 1 * (s.gen - g0) = s.gen := by omega
      rw [hr, List.range'_concat, hx, List.map_append]
      simp
    obtain ⟨bead2, h1, h2, h3, h4, h5, h6, h7⟩ :=
      ih
        ({ s with
            beads := insertKV s.beads bead_id bead1,
            gen := s.gen + 1,
            clock := s.clock + 1 })
        bead_id bead1 g0 hl1 (by simpa using hv1) (by simp; omega) (by simp [hbead1])
    refine ⟨bead2, h1, ?_, ?_, ?_, ?_, ?_, ?_⟩
    · rw [h2]
      congr 2
      all_goals try simp
      all_goals try omega
    · rw [h3]
      congr 2
      all_goals try simp
      all_goals try omega
    · rw [h4]
    · rw [h5]
    · rw [List.length_cons, List.range', List.map_cons]
      rw [h6]
    · rw [h7]
      show s.gen + 1 + rest.length = s.gen + (rest.length + 1)
      omega

theorem upsert_many_fresh_spec (s : InMemoryEpisodicStore) (bead_id : String)
    (c : BeadType × List (String × Json)) (rest : List (BeadType × List (String × Json)))
    (h : lookupKV s.beads bead_id = none) :
    ∃ bead2 : Bead,
      lookupKV (s.upsert_many bead_id (c :: rest)).1.beads bead_id = some bead2 ∧
      bead2.versions.map Prod.fst =
        (List.range' s.gen (rest.length + 1)).map genId ∧
      bead2.active_version_id = some (genId (s.gen + rest.length)) ∧
      bead2.id = bead_id ∧ bead2.type = c.1 ∧
      (s.upsert_many bead_id (c :: rest)).2 = (List.range' s.gen (rest.length + 1)).map
        (fun n => { bead_id, bead_version_id := some (genId n), role := "created" }) ∧
      (s.upsert_many bead_id (c :: rest)).1.gen = s.gen + rest.length + 1 := by
  rw [InMemoryEpisodicStore.upsert_many]
  simp only [upsert_step_fresh s bead_id c.1 c.2 h]
  set bead1 : Bead :=
    { id := bead_id, type := c.1,
      versions := [(genId s.gen,
        { id := genId s.gen, bead_id, type := c.1,
          created_ts := tsRender s.clock, data := c.2 })],
      active_version_id := some (genId s.gen) } with hbead1
  have hl1 : lookupKV (insertKV s.beads bead_id bead1) bead_id = some bead1 :=
    lookupKV_insertKV_self s.beads bead_id bead1
  obtain ⟨bead2, h1, h2, h3, h4, h5, h6, h7⟩ :=
    upsert_many_aux rest
      ({ s with
          beads := insertKV s.beads bead_id bead1,
          gen := s.gen + 1,
          clock := s.clock + 1 })
      bead_id bead1 s.gen hl1
      (by simp [hbead1, List.range'])
      (by simp)
      (by simp [hbead1])
  refine ⟨bead2, h1, ?_, ?_, ?_, ?_, ?_, ?_⟩
  · rw [h2]
    congr 2
    all_goals try simp
    all_goals try omega
  · rw [h3]
    congr 2
    all_goals try simp
  · rw [h4]
  · rw [h5]
  · rw [List.range', List.map_cons]
    rw [h6]
  · rw [h7]
    show s.gen + 1 + rest.length = s.gen + rest.length + 1
    omega

theorem n4_upsert_step (s : Neo4jEpisodicStore) (bead_id : String) (t : BeadType)
    (d : List (String × Json)) :
    s.upsert_bead_version bead_id t d =
      ({ s with
          beadNodes :=
            if s.beadNodes.any (fun b => b.id = bead_id) then
              s.beadNodes.map (fun b =>
                if b.id = bead_id then { b with active_version_id := genId s.gen }
                else b)
            else
              s.beadNodes ++ [⟨bead_id, beadTypeStr t, genId s.gen⟩],
          versionNodes := s.versionNodes ++
            [⟨genId s.gen, bead_id, s.braid_id, beadTypeStr t, tsRender s.clock,
              Json.dumps (.obj d)⟩],
          gen := s.gen + 1,
          clock := s.clock + 1 },
       { bead_id, bead_version_id := some (genId s.gen), role := "created" }) := by
  rw [Neo4jEpisodicStore.upsert_bead_version]

theorem n4_upsert_many_aux : ∀ (rest : List (BeadType × List (String × Json)))
    (s : Neo4jEpisodicStore) (bead_id : String) (pre : List BeadNode) (t : String),
    s.beadNodes = pre ++
      [{ id := bead_id, type := t, active_version_id := genId (s.gen - 1) }] →
    (∀ b ∈ pre, b.id ≠ bead_id) →
    0 < s.gen →
    (s.upsert_many bead_id rest).1.beadNodes = pre ++
        [{ id := bead_id, type := t,
           active_version_id := genId (s.gen + rest.length - 1) }] ∧
      ((s.upsert_many bead_id rest).1.versionNodes.filter
          (fun v => v.bead_id = bead_id)).map (fun v => v.id) =
        (s.versionNodes.filter (fun v => v.bead_id = bead_id)).map (fun v => v.id) ++
          (List.range' s.gen rest.length).map genId ∧
      (s.upsert_many bead_id rest).2 = (List.range' s.gen rest.length).map
        (fun n => { bead_id, bead_version_id := some (genId n), role := "created" }) ∧
      (s.upsert_many bead_id rest).1.gen = s.gen + rest.length := by
  intro rest
  induction rest with
  | nil =>
    intro s bead_id pre t hb hpre hg
    rw [Neo4jEpisodicStore.upsert_many]
    exact ⟨by simpa using hb, by simp, rfl, rfl⟩
  | cons c rest2 ih =>
    intro s bead_id pre t hb hpre hg
    rw [Neo4jEpisodicStore.upsert_many]
    simp only [n4_upsert_step s bead_id c.1 c.2]
    have hany : s.beadNodes.any (fun b => decide (b.id = bead_id)) = true := by
      rw [hb]
      simp
    rw [if_pos hany]
    have hmap : s.beadNodes.map (fun b =>
        if b.id = bead_id then { b with active_version_id := genId s.gen } else b) =
        pre ++ [{ id := bead_id, type := t, active_version_id := genId s.gen }] := by
      rw [hb, List.map_append]
      congr 1
      · rw [List.map_congr_left
          (fun b hbm => if_neg (hpre b hbm) :
            ∀ b ∈ pre, (if b.id = bead_id
              then { b with active_version_id := genId s.gen } else b) = b)]
        exact List.map_id' pre
      · simp
    rw [hmap]
    obtain ⟨h1, h2, h3, h4⟩ :=
      ih
        ({ s with
            beadNodes := pre ++
              [{ id := bead_id, type := t, active_version_id := genId s.gen }],
            versionNodes := s.versionNodes ++
              [{ id := genId s.gen, bead_id, braid_id := s.braid_id,
                 type := beadTypeStr c.1, created_ts := tsRender s.clock,
                 data_json := Json.dumps (.obj c.2) }],
            gen := s.gen + 1,
            clock := s.clock + 1 })
        bead_id pre t (by simp) hpre (by simp)
    refine ⟨?_, ?_, ?_, ?_⟩
    · rw [h1]
      show pre ++ [(⟨bead_id, t, genId (s.gen + 1 + rest2.length - 1)⟩ : BeadNode)] =
        pre ++ [(⟨bead_id, t, genId (s.gen + (c :: rest2).length - 1)⟩ : BeadNode)]
      have he : s.gen + 1 + rest2.length - 1 = s.gen + (c :: rest2).length - 1 := by
        rw [List.length_cons]
        omega
      rw [he]
    · rw [h2]
      show List.map (fun v => v.id) (List.filter (fun v => decide (v.bead_id = bead_id))
          (s.versionNodes ++ [⟨genId s.gen, bead_id, s.braid_id, beadTypeStr c.1,
            tsRender s.clock, Json.dumps (.obj c.2)⟩])) ++
          List.map genId (List.range' (s.gen + 1) rest2.length) =
        List.map (fun v => v.id) (List.filter (fun v => decide (v.bead_id = bead_id))
          s.versionNodes) ++ List.map genId (List.range' s.gen (c :: rest2).length)
      rw [List.filter_append, List.map_append]
      simp only [List.filter_cons, List.filter_nil]
      rw [if_pos (by simp)]
      rw [List.append_assoc]
      congr 1
    · rw [List.length_cons, List.range', List.map_cons]
      rw [h3]
    · rw [h4]
      show s.gen + 1 + rest2.length = s.gen + (c :: rest2).length
      rw [List.length_cons]
      omega

theorem mergeSort_one {α : Type} (le : α → α → Bool) (a : α) :
    List.mergeSort [a] le = [a] := by
  rw [List.mergeSort]

theorem n4_upsert_fresh_spec (s : Neo4jEpisodicStore) (bead_id : String)
    (c : BeadType × List (String × Json)) (rest : List (BeadType × List (String × Json)))
    (h : ∀ b ∈ s.beadNodes, b.id ≠ bead_id) :
    (s.upsert_many bead_id (c :: rest)).1.beadNodes = s.beadNodes ++
        [{ id := bead_id, type := beadTypeStr c.1,
           active_version_id := genId (s.gen + rest.length) }] ∧
      ((s.upsert_many bead_id (c :: rest)).1.versionNodes.filter
          (fun v => v.bead_id = bead_id)).map (fun v => v.id) =
        (s.versionNodes.filter (fun v => v.bead_id = bead_id)).map (fun v => v.id) ++
          (List.range' s.gen (rest.length + 1)).map genId ∧
      (s.upsert_many bead_id (c :: rest)).2 = (List.range' s.gen (rest.length + 1)).map
        (fun n => { bead_id, bead_version_id := some (genId n), role := "created" }) ∧
      (s.upsert_many bead_id (c :: rest)).1.gen = s.gen + rest.length + 1 := by
  rw [Neo4jEpisodicStore.upsert_many]
  simp only [n4_upsert_step s bead_id c.1 c.2]
  have hany : s.beadNodes.any (fun b => decide (b.id = bead_id)) = false := by
    rw [List.any_eq_false]
    intro b hb
    simpa using h b hb
  rw [if_neg (by rw [hany]; simp)]
  obtain ⟨h1, h2, h3, h4⟩ :=
    n4_upsert_many_aux rest
      ({ s with
          beadNodes := s.beadNodes ++
            [⟨bead_id, beadTypeStr c.1, genId s.gen⟩],
          versionNodes := s.versionNodes ++
            [{ id := genId s.gen, bead_id, braid_id := s.braid_id,
               type := beadTypeStr c.1, created_ts := tsRender s.clock,
               data_json := Json.dumps (.obj c.2) }],
          gen := s.gen + 1,
          clock := s.clock + 1 })
      bead_id s.beadNodes (beadTypeStr c.1) (by simp) h (by simp)
  refine ⟨?_, ?_, ?_, ?_⟩
  · rw [h1]
    show s.beadNodes ++ [(⟨bead_id, beadTypeStr c.1,
        genId (s.gen + 1 + rest.length - 1)⟩ : BeadNode)] =
      s.beadNodes ++ [(⟨bead_id, beadTypeStr c.1,
        genId (s.gen + rest.length)⟩ : BeadNode)]
    have he : s.gen + 1 + rest.length - 1 = s.gen + rest.length := by omega
    rw [he]
  · rw [h2]
    show List.map (fun v => v.id) (List.filter (fun v => decide (v.bead_id = bead_id))
        (s.versionNodes ++ [⟨genId s.gen, bead_id, s.braid_id, beadTypeStr c.1,
          tsRender s.clock, Json.dumps (.obj c.2)⟩])) ++
        List.map genId (List.range' (s.gen + 1) rest.length) =
      List.map (fun v => v.id) (List.filter (fun v => decide (v.bead_id = bead_id))
        s.versionNodes) ++ List.map genId (List.range' s.gen (rest.length + 1))
    rw [List.filter_append, List.map_append]
    simp only [List.filter_cons, List.filter_nil]
    rw [if_pos (by simp)]
    rw [List.append_assoc]
    congr 1
  · rw [List.range', List.map_cons]
    rw [h3]
  · rw [h4]
    show s.gen + 1 + rest.length = s.gen + rest.length + 1
    omega

/-- One `append_delta` on a fresh durable store, read back with limit 1:
the read returns the delta with `refs` stripped. -/
theorem n4_single_roundtrip (b : String) (d : GenericDelta) (hb : d.braid_id = b)
    (hw : wfDelta d = true) :
    ((Neo4jEpisodicStore.mk0 b).append_delta d).get_recent_deltas 1 =
      some [stripRefs d] := by
  have h := n4_get_recent_deltas_spec b [d] 1
    (by intro x hx; rw [List.mem_singleton] at hx; subst hx; exact hb)
    (by intro x hx; rw [List.mem_singleton] at hx; subst hx; exact hw)
    (by decide)
  rw [show (Neo4jEpisodicStore.mk0 b).append_many [d] =
      (Neo4jEpisodicStore.mk0 b).append_delta d from rfl] at h
  exact h

/-! ## The claims -/

/-- C1: the claim that every read operation returns identical externally
observable results on the two backends after identical operation
sequences is refuted: after the same single `upsert_bead_version` call on
fresh stores for braid `"b"`, `get_recent_bead_versions` returns rows that
differ — the durable backend's row dicts carry a `braid_id` key that the
reference backend's rows do not have. -/
theorem C1_bug :
    ∃ rowM rowN : BeadVersionRow,
      (((InMemoryEpisodicStore.mk0 "b").upsert_bead_version "bead1"
          .memory_bead []).1).get_recent_bead_versions none 10 = [rowM] ∧
      (((Neo4jEpisodicStore.mk0 "b").upsert_bead_version "bead1"
          .memory_bead []).1).get_recent_bead_versions none 10 = [rowN] ∧
      rowM.braid_id = none ∧ rowN.braid_id = some "b" ∧ rowM ≠ rowN := by
  refine ⟨⟨"bead1", genId 0, none, "memory_bead", tsRender 0, .obj []⟩,
    ⟨"bead1", genId 0, some "b", "memory_bead", tsRender 0, .obj []⟩,
    ?_, ?_, rfl, rfl,
    fun hc => by simpa using congrArg BeadVersionRow.braid_id hc⟩
  · have hs : ((InMemoryEpisodicStore.mk0 "b").upsert_bead_version "bead1"
        .memory_bead []).1 =
      { braid_id := "b", deltas := [], knots := [],
        beads := [("bead1",
          { id := "bead1", type := .memory_bead,
            active_version_id := some (genId 0),
            versions := [(genId 0,
              { id := genId 0, bead_id := "bead1", type := .memory_bead,
                created_ts := tsRender 0, data := [] })] })],
        episodes := [], active_episode_id := none, gen := 1, clock := 1 } := rfl
    rw [hs, InMemoryEpisodicStore.get_recent_bead_versions]
    rw [if_neg (by decide)]
    show takeLast (List.mergeSort
        [(⟨"bead1", genId 0, none, "memory_bead", tsRender 0, .obj []⟩ :
          BeadVersionRow)]
        (fun a b => decide (a.created_ts ≤ b.created_ts))) (Int.toNat 10) =
      [⟨"bead1", genId 0, none, "memory_bead", tsRender 0, .obj []⟩]
    rw [mergeSort_one]
    rfl
  · have hs : ((Neo4jEpisodicStore.mk0 "b").upsert_bead_version "bead1"
        .memory_bead []).1 =
      { braid_id := "b", next_delta_seq := 0, next_knot_seq := 0,
        active_episode_id := "", deltaNodes := [], knotNodes := [],
        beadNodes := [⟨"bead1", "memory_bead", genId 0⟩],
        versionNodes := [⟨genId 0, "bead1", "b", "memory_bead", tsRender 0,
          Json.dumps (.obj [])⟩],
        gen := 1, clock := 1 } := rfl
    rw [hs, Neo4jEpisodicStore.get_recent_bead_versions]
    rw [if_neg (by decide)]
    show (((List.mergeSort
        [(⟨genId 0, "bead1", "b", "memory_bead", tsRender 0,
          Json.dumps (.obj [])⟩ : BVNode)]
        (fun a b => decide (b.created_ts ≤ a.created_ts))).take
          (Int.toNat 10)).map (fun v =>
        ({ bead_id := v.bead_id, bead_version_id := v.id,
           braid_id := some v.braid_id, type := v.type,
           created_ts := v.created_ts,
           data := (Json.loads (pyOrStr v.data_json "\x7b\x7d")).getD
             .null } : BeadVersionRow))).reverse =
      ([⟨"bead1", genId 0, some "b", "memory_bead", tsRender 0, .obj []⟩] :
        List BeadVersionRow)
    rw [mergeSort_one]
    rfl

/-- C2: counterexample — a delta carrying a `refs` value, appended to the
durable backend, is not returned "exactly" by `get_recent_deltas`: the
read path drops `refs`. -/
theorem C2_counterexample :
    ((Neo4jEpisodicStore.mk0 "b").append_delta deltaWithRefs).get_recent_deltas
      1 ≠ some [deltaWithRefs] := by
  rw [n4_single_roundtrip "b" deltaWithRefs rfl (by decide)]
  intro hc
  have h2 := congrArg (fun o => (o.getD []).map GenericDelta.refs) hc
  simp [stripRefs, deltaWithRefs] at h2

/-- C2 (amended): on the reference backend `get_recent_deltas` /
`get_recent_knots` return `[]` for non-positive limits and otherwise the
last `limit` items oldest-first (everything when `limit` covers the
count); the durable backend behaves identically for knots, and for deltas
returns the same suffix with each delta's `refs` field stripped (reads
also filter by the store's braid id, so the appended deltas are required
to carry it). -/
theorem C2_amended :
    (∀ (b : String) (ds : List GenericDelta) (limit : Int),
      ((InMemoryEpisodicStore.mk0 b).append_many ds).get_recent_deltas limit =
        if limit ≤ 0 then [] else ds.drop (ds.length - limit.toNat)) ∧
    (∀ (b : String) (calls : List KnotArgs) (limit : Int),
      (((InMemoryEpisodicStore.mk0 b).commit_many calls).1).get_recent_knots
          limit =
        if limit ≤ 0 then []
        else (((InMemoryEpisodicStore.mk0 b).commit_many calls).2).drop
          (calls.length - limit.toNat)) ∧
    (∀ (b : String) (ds : List GenericDelta) (limit : Int),
      (∀ d ∈ ds, d.braid_id = b) → (∀ d ∈ ds, wfDelta d = true) →
      ((Neo4jEpisodicStore.mk0 b).append_many ds).get_recent_deltas limit =
        some (if limit ≤ 0 then []
          else (ds.drop (ds.length - limit.toNat)).map stripRefs)) ∧
    (∀ (b : String) (calls : List KnotArgs) (limit : Int),
      (∀ a ∈ calls, wfKnotArgs a = true) →
      (((Neo4jEpisodicStore.mk0 b).commit_many calls).1).get_recent_knots
          limit =
        some (if limit ≤ 0 then []
          else (((Neo4jEpisodicStore.mk0 b).commit_many calls).2).drop
            (calls.length - limit.toNat))) := by
  refine ⟨?_, ?_, ?_, ?_⟩
  · intro b ds limit
    rw [append_many_state, InMemoryEpisodicStore.get_recent_deltas]
    by_cases hl : limit ≤ 0
    · rw [if_pos hl, if_pos hl]
    · rw [if_neg hl, if_neg hl]
      show takeLast ((InMemoryEpisodicStore.mk0 b).deltas ++ ds) limit.toNat = _
      rw [show (InMemoryEpisodicStore.mk0 b).deltas = ([] : List GenericDelta)
        from rfl, List.nil_append, takeLast]
  · intro b calls limit
    obtain ⟨h1, h2⟩ := commit_many_spec calls (InMemoryEpisodicStore.mk0 b)
    rw [InMemoryEpisodicStore.get_recent_knots]
    by_cases hl : limit ≤ 0
    · rw [if_pos hl, if_pos hl]
    · rw [if_neg hl, if_neg hl, h1]
      rw [show (InMemoryEpisodicStore.mk0 b).knots = ([] : List Knot) from rfl,
        List.nil_append, takeLast, h2]
  · intro b ds limit hb hw
    by_cases hl : limit ≤ 0
    · rw [if_pos hl, Neo4jEpisodicStore.get_recent_deltas, if_pos hl]
    · rw [if_neg hl]
      exact n4_get_recent_deltas_spec b ds limit hb hw (by omega)
  · intro b calls limit hw
    by_cases hl : limit ≤ 0
    · rw [if_pos hl, Neo4jEpisodicStore.get_recent_knots, if_pos hl]
    · rw [if_neg hl]
      exact n4_get_recent_knots_spec b calls limit hw (by omega)

/-- C3: on both backends, after `k = rest.length + 1` calls to
`upsert_bead_version` with the same bead id on a fresh store, the bead
has exactly `k` versions whose ids are the `k` generated ids in creation
order (history is append-only), `active_version_id` is the most recent
call's version id, and each call returned a
`{bead_id, bead_version_id, role := "created"}` reference. -/
theorem C3_invariant : ∀ (b bead_id : String)
    (c : BeadType × List (String × Json))
    (rest : List (BeadType × List (String × Json))),
    (∃ bead2 : Bead,
      lookupKV ((InMemoryEpisodicStore.mk0 b).upsert_many bead_id
        (c :: rest)).1.beads bead_id = some bead2 ∧
      bead2.versions.length = rest.length + 1 ∧
      bead2.versions.map Prod.fst = (List.range' 0 (rest.length + 1)).map genId ∧
      bead2.active_version_id = some (genId rest.length) ∧
      ((InMemoryEpisodicStore.mk0 b).upsert_many bead_id (c :: rest)).2 =
        (List.range' 0 (rest.length + 1)).map
          (fun n => { bead_id, bead_version_id := some (genId n),
                      role := "created" })) ∧
    (((Neo4jEpisodicStore.mk0 b).upsert_many bead_id (c :: rest)).1.beadNodes =
        [{ id := bead_id, type := beadTypeStr c.1,
           active_version_id := genId rest.length }] ∧
      ((((Neo4jEpisodicStore.mk0 b).upsert_many bead_id
          (c :: rest)).1.versionNodes.filter
            (fun v => v.bead_id = bead_id)).map (fun v => v.id)) =
        (List.range' 0 (rest.length + 1)).map genId ∧
      ((Neo4jEpisodicStore.mk0 b).upsert_many bead_id (c :: rest)).2 =
        (List.range' 0 (rest.length + 1)).map
          (fun n => { bead_id, bead_version_id := some (genId n),
                      role := "created" })) := by
  intro b bead_id c rest
  constructor
  · obtain ⟨bead2, h1, h2, h3, h4, h5, h6, h7⟩ :=
      upsert_many_fresh_spec (InMemoryEpisodicStore.mk0 b) bead_id c rest rfl
    refine ⟨bead2, h1, ?_, h2, ?_, h6⟩
    · have hlen := congrArg List.length h2
      simpa using hlen
    · have h3' : bead2.active_version_id = some (genId (0 + rest.length)) := h3
      rw [Nat.zero_add] at h3'
      exact h3'
  · obtain ⟨h1, h2, h3, h4⟩ :=
      n4_upsert_fresh_spec (Neo4jEpisodicStore.mk0 b) bead_id c rest
        (by intro x hx; cases hx)
    refine ⟨?_, ?_, h3⟩
    · have h1' : ((Neo4jEpisodicStore.mk0 b).upsert_many bead_id
          (c :: rest)).1.beadNodes =
        [] ++ [{ id := bead_id, type := beadTypeStr c.1,
                 active_version_id := genId (0 + rest.length) }] := h1
      rw [Nat.zero_add, List.nil_append] at h1'
      exact h1'
    · have h2' : ((((Neo4jEpisodicStore.mk0 b).upsert_many bead_id
          (c :: rest)).1.versionNodes.filter
            (fun v => v.bead_id = bead_id)).map (fun v => v.id)) =
        (([] : List BVNode).filter (fun v => v.bead_id = bead_id)).map
            (fun v => v.id) ++
          (List.range' 0 (rest.length + 1)).map genId := h2
      simpa using h2'

/-- C4: pydantic validates `confidence` at construction time: values in
`[0, 1]` construct successfully and are stored exactly; values outside
fail with a `ValidationError`-class error, producing no entity. -/
theorem C4_confidence : ∀ (id braid_id : String) (kind : DeltaKind)
    (ts : String) (prov : Provenance) (conf : ℚ)
    (payload : List (String × Json)) (refs : Option DeltaRefs)
    (tags : List String) (ty : EpisodeEdgeType) (to_episode_id : String),
    (0 ≤ conf ∧ conf ≤ 1 →
      GenericDelta.construct id braid_id kind ts prov conf payload refs tags =
        .ok { id, braid_id, kind, ts, provenance := prov, confidence := conf,
              payload, refs, tags } ∧
      EpisodeEdge.construct ty to_episode_id conf =
        .ok { type := ty, to_episode_id, confidence := conf }) ∧
    (conf < 0 ∨ 1 < conf →
      GenericDelta.construct id braid_id kind ts prov conf payload refs tags =
        .error .confidence_out_of_range ∧
      EpisodeEdge.construct ty to_episode_id conf =
        .error .confidence_out_of_range) := by
  intro id braid_id kind ts prov conf payload refs tags ty to_episode_id
  constructor
  · intro h
    exact ⟨by rw [GenericDelta.construct, if_pos h],
      by rw [EpisodeEdge.construct, if_pos h]⟩
  · intro h
    have hn : ¬(0 ≤ conf ∧ conf ≤ 1) := by
      intro hc
      rcases h with h | h <;> linarith [hc.1, hc.2]
    exact ⟨by rw [GenericDelta.construct, if_neg hn],
      by rw [EpisodeEdge.construct, if_neg hn]⟩

/-- C5: counterexample — serialization through the durable backend is not
lossless for the `refs` field: a delta with a non-`None` `refs` reads
back with `refs = None`. -/
theorem C5_counterexample :
    deltaWithRefs.refs ≠ none ∧
    ((Neo4jEpisodicStore.mk0 "b").append_delta deltaWithRefs).get_recent_deltas
      1 = some [stripRefs deltaWithRefs] ∧
    (stripRefs deltaWithRefs).refs = none := by
  refine ⟨by simp [deltaWithRefs], ?_, rfl⟩
  exact n4_single_roundtrip "b" deltaWithRefs rfl (by decide)

/-- C5 (amended): for every schema-valid delta carrying the store's braid
id, the durable backend's serialize/deserialize cycle is lossless on
every field except `refs`, which reads back as `None`: the read returns
exactly the appended delta with `refs` stripped, including the nested
provenance, an arbitrarily nested payload and the tags. -/
theorem C5_amended (b : String) (d : GenericDelta) (hb : d.braid_id = b)
    (hw : wfDelta d = true) :
    ((Neo4jEpisodicStore.mk0 b).append_delta d).get_recent_deltas 1 =
      some [stripRefs d] :=
  n4_single_roundtrip b d hb hw

/-- Witness for C5 (amended) at a concrete delta. -/
theorem C5_amended_witness :
    ((Neo4jEpisodicStore.mk0 "b").append_delta deltaWithRefs).get_recent_deltas
      1 = some [stripRefs deltaWithRefs] :=
  C5_amended "b" deltaWithRefs rfl (by decide)

/-- C6: the claimed state filter of `list_episodes` is broken: `Episode`
defines no `state` attribute (and `schema/episode.py` no `EpisodeState`),
so filtering any non-empty episode list raises `AttributeError`; only the
unfiltered call works. -/
theorem C6_bug :
    ((InMemoryEpisodicStore.mk0 "b").upsert_episode
        (Episode.construct_default "e1" "b")).list_episodes (some "open") 50 =
      .error .attributeError ∧
    ((InMemoryEpisodicStore.mk0 "b").upsert_episode
        (Episode.construct_default "e1" "b")).list_episodes none 50 =
      .ok [Episode.construct_default "e1" "b"] := by
  constructor
  · rfl
  · rfl

/-- C7: full-replacement upsert holds on the reference backend (the
stored episode after two upserts under one id is exactly the second
object, so no edge of the first survives), but the durable backend's
`upsert_episode` reads `ep.state`, which no `Episode` has, and raises
`AttributeError` on every call — the claimed behavior is unachievable
there. -/
theorem C7_bug :
    (∀ (s : InMemoryEpisodicStore) (e1 e2 : Episode), e2.id = e1.id →
      lookupKV ((s.upsert_episode e1).upsert_episode e2).episodes e1.id =
        some e2) ∧
    (∀ (t : Neo4jEpisodicStore) (e : Episode),
      t.upsert_episode e = .error .attributeError) := by
  constructor
  · intro s e1 e2 h
    rw [InMemoryEpisodicStore.upsert_episode, InMemoryEpisodicStore.upsert_episode]
    rw [← h]
    exact lookupKV_insertKV_self _ e2.id e2
  · intro t e
    rfl

/-- C8: `commit_knot` never consults the delta log: on both backends, for
every argument list (whether or not the referenced delta ids were ever
appended) it constructs a knot with the store's braid id and exactly
`{start_delta_id, end_delta_id}` as its range, persists it, and returns
it. -/
theorem C8_commit :
    (∀ (s : InMemoryEpisodicStore) (a : KnotArgs),
      (s.commit_knot a).2.braid_id = s.braid_id ∧
      (s.commit_knot a).2.delta_range =
        { start_delta_id := a.start_delta_id,
          end_delta_id := a.end_delta_id } ∧
      (s.commit_knot a).1.knots = s.knots ++ [(s.commit_knot a).2]) ∧
    (∀ (t : Neo4jEpisodicStore) (a : KnotArgs),
      (t.commit_knot a).2.braid_id = t.braid_id ∧
      (t.commit_knot a).2.delta_range =
        { start_delta_id := a.start_delta_id,
          end_delta_id := a.end_delta_id } ∧
      (t.commit_knot a).1.knotNodes = t.knotNodes ++
        [knotNodeOf (t.commit_knot a).2 a (t.next_knot_seq + 1)]) := by
  constructor
  · intro s a
    exact ⟨rfl, rfl, rfl⟩
  · intro t a
    exact ⟨rfl, rfl, rfl⟩

/-- C9: counterexample — `Episode.labels` does not default to an empty
container: its default factory builds
`{"topics": [], "intents": [], "modalities": []}`. -/
theorem C9_counterexample :
    (Episode.construct_default "e1" "b1").labels ≠ [] := by
  decide

/-- C9 (amended): every collection-valued field of `GenericDelta`,
`DeltaRefs`, `Knot` and `Episode` defaults to the empty container of its
type, except `Episode.labels`, whose default is the three-key dict
`{"topics": [], "intents": [], "modalities": []}` (each instance gets a
fresh copy from the default factory). -/
theorem C9_amended : ∀ (id b pe st en : String) (kind : DeltaKind)
    (ts : String) (prov : Provenance) (dr : DeltaRange),
    (GenericDelta.construct_default id b kind ts prov).payload = [] ∧
    (GenericDelta.construct_default id b kind ts prov).tags = [] ∧
    (GenericDelta.construct_default id b kind ts prov).refs = none ∧
    DeltaRefs.construct_default.beads = [] ∧
    DeltaRefs.construct_default.knots = [] ∧
    DeltaRefs.construct_default.episodes = [] ∧
    DeltaRefs.construct_default.deltas = [] ∧
    (Knot.construct_default id b pe st en dr).inbox_watermark = [] ∧
    (Knot.construct_default id b pe st en dr).arrivals_during = [] ∧
    (Knot.construct_default id b pe st en dr).planned_tools = [] ∧
    (Knot.construct_default id b pe st en dr).executed_tools = [] ∧
    (Knot.construct_default id b pe st en dr).hypotheses = [] ∧
    (Knot.construct_default id b pe st en dr).metrics = [] ∧
    (Episode.construct_default id b).primary_knot_span = [] ∧
    (Episode.construct_default id b).knot_refs = [] ∧
    (Episode.construct_default id b).edges = [] ∧
    (Episode.construct_default id b).summary_cache = [] ∧
    (Episode.construct_default id b).anchor_quotes = [] ∧
    (Episode.construct_default id b).labels =
      [("topics", .arr []), ("intents", .arr []), ("modalities", .arr [])] := by
  intro id b pe st en kind ts prov dr
  exact ⟨rfl, rfl, rfl, rfl, rfl, rfl, rfl, rfl, rfl, rfl, rfl, rfl, rfl, rfl,
    rfl, rfl, rfl, rfl, rfl⟩

/-- C10: the reference backend's `append_delta` stores any delta exactly
as given and its reads never filter by braid id: a delta whose braid id
differs from the store's is still returned unchanged by a
sufficiently-large-limit `get_recent_deltas`. -/
theorem C10_no_braid_filter : ∀ (s : InMemoryEpisodicStore)
    (d : GenericDelta) (limit : Int),
    (s.append_delta d).deltas = s.deltas ++ [d] ∧
    (d.braid_id ≠ s.braid_id → (s.deltas.length : Int) < limit →
      (s.append_delta d).get_recent_deltas limit = s.deltas ++ [d]) := by
  intro s d limit
  refine ⟨rfl, fun _ hlim => ?_⟩
  rw [InMemoryEpisodicStore.get_recent_deltas]
  rw [if_neg (by omega)]
  show takeLast (s.deltas ++ [d]) limit.toNat = s.deltas ++ [d]
  rw [takeLast]
  have hz : (s.deltas ++ [d]).length - limit.toNat = 0 := by
    simp only [List.length_append, List.length_cons, List.length_nil]
    omega
  rw [hz, List.drop_zero]
